import Mathlib

/-!
Verification of the multi-agent constraint-solving core (JSON extractor,
constraint variable analyzer, candidate validator, self-correction
orchestrator).  The Python source is shallowly embedded: JSON values become an
inductive type, Python dicts become association lists with string keys,
Python exceptions become an `Except` layer, and the external LLM oracles
become explicit reply streams indexed by call count.
-/

set_option maxRecDepth 10000

namespace JD

/-- Characters of a Python string. -/
abbrev LC := List Char

/-- Parsed JSON values as Python objects.  Number literals keep their matched
lexeme (the validator never does arithmetic on them); `int` is used for the
Python integers the orchestrator itself creates (the iteration counter). -/
inductive Json where
  | null : Json
  | bool (b : Bool) : Json
  | num (lex : LC) : Json
  | int (n : Nat) : Json
  | str (s : LC) : Json
  | arr (es : List Json) : Json
  | obj (kvs : List (LC × Json)) : Json

mutual
/-- Structural equality on parsed values (Python `==` restricted to the
comparisons the source performs, which are all against strings or `None`). -/
def jsonBeq : Json → Json → Bool
  | .null, .null => true
  | .bool a, .bool b => a == b
  | .num a, .num b => a == b
  | .int a, .int b => a == b
  | .str a, .str b => a == b
  | .arr a, .arr b => jsonListBeq a b
  | .obj a, .obj b => jsonPairsBeq a b
  | _, _ => false

def jsonListBeq : List Json → List Json → Bool
  | [], [] => true
  | a :: as, b :: bs => jsonBeq a b && jsonListBeq as bs
  | _, _ => false

def jsonPairsBeq : List (LC × Json) → List (LC × Json) → Bool
  | [], [] => true
  | (ka, va) :: as, (kb, vb) :: bs => ka == kb && jsonBeq va vb && jsonPairsBeq as bs
  | _, _ => false
end

instance : BEq Json := ⟨jsonBeq⟩

instance : Inhabited Json := ⟨Json.null⟩

instance : Nonempty Json := ⟨Json.null⟩

instance : Nonempty (List (LC × Json)) := ⟨[]⟩

/-- Association-list lookup for a Python dict with string keys. -/
def dLookup (kvs : List (LC × Json)) (k : LC) : Option Json :=
  match kvs with
  | [] => none
  | (k', v) :: rest => if k' = k then some v else dLookup rest k

/-- Python `key in dict`. -/
def dHasKey (kvs : List (LC × Json)) (k : LC) : Bool :=
  (dLookup kvs k).isSome

/-- Python `dict.get(key, default)`. -/
def dGetD (kvs : List (LC × Json)) (k : LC) (dflt : Json) : Json :=
  (dLookup kvs k).getD dflt

/-- Python `dict[key] = value`: update in place if present, else append. -/
def dSet (kvs : List (LC × Json)) (k : LC) (v : Json) : List (LC × Json) :=
  match kvs with
  | [] => [(k, v)]
  | (k', v') :: rest => if k' = k then (k, v) :: rest else (k', v') :: dSet rest k v

/-! ## JSON decoding (`json.JSONDecoder.raw_decode`)

Position-anchored, non-greedy decoding exactly as Python's default decoder:
prefix-based literals, the strict number regex, strict strings, `NaN` /
`Infinity` constants, whitespace `" \t\n\r"` inside containers only. -/

def jsonWs (c : Char) : Bool :=
  c = ' ' || c = '\t' || c = '\n' || c = '\r'

def skipWs (l : LC) : LC := l.dropWhile jsonWs

def isHexDigit (c : Char) : Bool :=
  c.isDigit || ('a' ≤ c && c ≤ 'f') || ('A' ≤ c && c ≤ 'F')

def hexVal (c : Char) : Nat :=
  if c.isDigit then c.toNat - '0'.toNat
  else if 'a' ≤ c && c ≤ 'f' then c.toNat - 'a'.toNat + 10
  else c.toNat - 'A'.toNat + 10

/-- Decode a `\uXXXX` quadruple. -/
def hex4 (a b c d : Char) : Nat :=
  ((hexVal a * 16 + hexVal b) * 16 + hexVal c) * 16 + hexVal d

/-- Decode a JSON string body (after the opening quote), strict mode:
raw control characters below 0x20 are rejected. Surrogate pairs combine;
a lone surrogate falls back to the replacement of `Char.ofNat`.  `fuel` only
bounds recursion; each step consumes at least one character. -/
def parseStrAux (fuel : Nat) (l : LC) : Option (LC × LC) :=
  match fuel with
  | 0 => none
  | fuel + 1 =>
    match l with
    | [] => none
    | '"' :: rest => some ([], rest)
    | '\\' :: esc =>
      match esc with
      | '"' :: rest => (parseStrAux fuel rest).map (fun (s, r) => ('"' :: s, r))
      | '\\' :: rest => (parseStrAux fuel rest).map (fun (s, r) => ('\\' :: s, r))
      | '/' :: rest => (parseStrAux fuel rest).map (fun (s, r) => ('/' :: s, r))
      | 'b' :: rest => (parseStrAux fuel rest).map (fun (s, r) => (Char.ofNat 8 :: s, r))
      | 'f' :: rest => (parseStrAux fuel rest).map (fun (s, r) => (Char.ofNat 12 :: s, r))
      | 'n' :: rest => (parseStrAux fuel rest).map (fun (s, r) => ('\n' :: s, r))
      | 'r' :: rest => (parseStrAux fuel rest).map (fun (s, r) => ('\r' :: s, r))
      | 't' :: rest => (parseStrAux fuel rest).map (fun (s, r) => ('\t' :: s, r))
      | 'u' :: h1 :: h2 :: h3 :: h4 :: rest =>
        if isHexDigit h1 && isHexDigit h2 && isHexDigit h3 && isHexDigit h4 then
          let n := hex4 h1 h2 h3 h4
          -- surrogate pair handling as in `py_scanstring`
          if 0xd800 ≤ n && n ≤ 0xdbff then
            match rest with
            | '\\' :: 'u' :: g1 :: g2 :: g3 :: g4 :: rest2 =>
              if isHexDigit g1 && isHexDigit g2 && isHexDigit g3 && isHexDigit g4 then
                let m := hex4 g1 g2 g3 g4
                if 0xdc00 ≤ m && m ≤ 0xdfff then
                  let cp := 0x10000 + (n - 0xd800) * 0x400 + (m - 0xdc00)
                  (parseStrAux fuel rest2).map (fun (s, r) => (Char.ofNat cp :: s, r))
                else (parseStrAux fuel rest).map (fun (s, r) => (Char.ofNat n :: s, r))
              else (parseStrAux fuel rest).map (fun (s, r) => (Char.ofNat n :: s, r))
            | _ => (parseStrAux fuel rest).map (fun (s, r) => (Char.ofNat n :: s, r))
          else (parseStrAux fuel rest).map (fun (s, r) => (Char.ofNat n :: s, r))
        else none
      | _ => none
    | c :: rest =>
      if c.toNat < 0x20 then none
      else (parseStrAux fuel rest).map (fun (s, r) => (c :: s, r))

def parseStr (l : LC) : Option (LC × LC) := parseStrAux (l.length + 1) l

/-- Match the JSON number regex
`(-?(?:0|[1-9]\d*))(\.\d+)?([eE][-+]?\d+)?` at the head of the input,
returning the matched lexeme and the rest. -/
def parseNum (l : LC) : Option (LC × LC) :=
  let (sign, l1) :=
    match l with
    | '-' :: rest => (['-'], rest)
    | _ => (([] : LC), l)
  match l1 with
  | [] => none
  | c :: rest =>
    if c = '0' then
      let intPart := [c]
      some (sign ++ intPart, rest) |>.map (fun (m, r) => numFrac m r)
    else if c.isDigit then
      let ds := rest.takeWhile Char.isDigit
      let r := rest.dropWhile Char.isDigit
      some (numFrac (sign ++ c :: ds) r)
    else none
where
  /-- Optional fraction then optional exponent, both all-or-nothing. -/
  numFrac (m : LC) (r : LC) : LC × LC :=
    let (m1, r1) :=
      match r with
      | '.' :: d :: rest =>
        if d.isDigit then
          let ds := rest.takeWhile Char.isDigit
          (m ++ '.' :: d :: ds, rest.dropWhile Char.isDigit)
        else (m, r)
      | _ => (m, r)
    match r1 with
    | e :: tail =>
      if e = 'e' || e = 'E' then
        let (sgn, tail2) :=
          match tail with
          | s :: t2 => if s = '+' || s = '-' then ([s], t2) else (([] : LC), tail)
          | [] => (([] : LC), tail)
        match tail2 with
        | d :: _ =>
          if d.isDigit then
            let ds := tail2.takeWhile Char.isDigit
            (m1 ++ e :: sgn ++ ds, tail2.dropWhile Char.isDigit)
          else (m1, r1)
        | [] => (m1, r1)
      else (m1, r1)
    | [] => (m1, r1)

mutual
/-- `scan_once` of the Python decoder: decode one JSON value at the head of
the input.  `fuel` only bounds recursion (structurally); callers supply
`2 * length + 2`, which always suffices: at most two nested calls happen per
consumed character. -/
def parseVal (fuel : Nat) (l : LC) : Option (Json × LC) :=
  match fuel with
  | 0 => none
  | fuel + 1 =>
    match l with
    | '"' :: rest => (parseStr rest).map (fun (s, r) => (Json.str s, r))
    | '{' :: rest =>
      -- object body: `}` closes immediately, else members start at a quote
      match skipWs rest with
      | '}' :: r2 => some (Json.obj [], r2)
      | '"' :: r2 => parseMembers fuel [] ('"' :: r2)
      | _ => none
    | '[' :: rest =>
      match skipWs rest with
      | ']' :: r2 => some (Json.arr [], r2)
      | t => parseElems fuel [] t
    | _ =>
      if "null".data.isPrefixOf l then some (Json.null, l.drop 4)
      else if "true".data.isPrefixOf l then some (Json.bool true, l.drop 4)
      else if "false".data.isPrefixOf l then some (Json.bool false, l.drop 5)
      else
        match parseNum l with
        | some (m, r) => some (Json.num m, r)
        | none =>
          if "NaN".data.isPrefixOf l then some (Json.num "NaN".data, l.drop 3)
          else if "Infinity".data.isPrefixOf l then
            some (Json.num "Infinity".data, l.drop 8)
          else if "-Infinity".data.isPrefixOf l then
            some (Json.num "-Infinity".data, l.drop 9)
          else none

/-- Members of an object; the input starts at the quote of the next key. -/
def parseMembers (fuel : Nat) (acc : List (LC × Json)) (l : LC) :
    Option (Json × LC) :=
  match fuel with
  | 0 => none
  | fuel + 1 =>
    match l with
    | '"' :: rest =>
      match parseStr rest with
      | none => none
      | some (key, r1) =>
        match skipWs r1 with
        | ':' :: r2 =>
          match parseVal fuel (skipWs r2) with
          | none => none
          | some (v, r3) =>
            let acc' := dSet acc key v
            match skipWs r3 with
            | '}' :: r4 => some (Json.obj acc', r4)
            | ',' :: r4 => parseMembers fuel acc' (skipWs r4)
            | _ => none
        | _ => none
    | _ => none

/-- Elements of an array; the input starts at the next value. -/
def parseElems (fuel : Nat) (acc : List Json) (l : LC) : Option (Json × LC) :=
  match fuel with
  | 0 => none
  | fuel + 1 =>
    match parseVal fuel l with
    | none => none
    | some (v, r1) =>
      match skipWs r1 with
      | ']' :: r2 => some (Json.arr (acc ++ [v]), r2)
      | ',' :: r2 => parseElems fuel (acc ++ [v]) (skipWs r2)
      | _ => none
end

/-- `decoder.raw_decode(block, idx)` restricted to a suffix: decode one value
at the head of `suf`, returning the value together with the exact matched
substring (the consumed prefix of `suf`). -/
def decodeHere (suf : LC) : Option (Json × LC) :=
  match parseVal (2 * suf.length + 2) suf with
  | none => none
  | some (v, rem) => some (v, suf.take (suf.length - rem.length))

/-! ## Fenced-block search (`_candidate_blocks`)

`re.findall(r"【triple-backtick】(?:json)?\s*(.*?)【triple-backtick】", src,
DOTALL | IGNORECASE)`: leftmost matches, scanning resumes after each match,
the lazy group ends at the first following fence. -/

/-- The backtick character (code 96). -/
def btick : Char := Char.ofNat 96

/-- Python regex `\s` on the characters relevant here. -/
def pyRegexWs (c : Char) : Bool :=
  c = ' ' || c = '\t' || c = '\n' || c = '\r' || c = Char.ofNat 11 ||
  c = Char.ofNat 12 || c = Char.ofNat 28 || c = Char.ofNat 29 ||
  c = Char.ofNat 30 || c = Char.ofNat 31 || c = Char.ofNat 133 ||
  c = Char.ofNat 160

/-- Does the input start with a triple backtick? -/
def startsFence (l : LC) : Bool :=
  match l with
  | a :: b :: c :: _ => a = btick && b = btick && c = btick
  | _ => false

/-- Consume `(?:json)?` case-insensitively. -/
def dropJsonTag (l : LC) : LC :=
  match l with
  | a :: b :: c :: d :: rest =>
    if a.toLower = 'j' && b.toLower = 's' && c.toLower = 'o' && d.toLower = 'n'
    then rest else l
  | _ => l

/-- Find the first closing fence, returning the content before it and the
input after it. -/
def splitAtFence : LC → Option (LC × LC)
  | [] => none
  | c :: rest =>
    if startsFence (c :: rest) then some ([], rest.drop 2)
    else (splitAtFence rest).map (fun (content, after) => (c :: content, after))

/-- All fenced-block contents in document order (`re.findall`). -/
def findBlocksAux (fuel : Nat) (l : LC) : List LC :=
  match fuel with
  | 0 => []
  | fuel + 1 =>
    match l with
    | [] => []
    | c :: rest =>
      if startsFence (c :: rest) then
        let afterOpen := rest.drop 2
        let afterTag := dropJsonTag afterOpen
        let afterWs := afterTag.dropWhile pyRegexWs
        match splitAtFence afterWs with
        | some (content, after) => content :: findBlocksAux fuel after
        | none => findBlocksAux fuel rest
      else findBlocksAux fuel rest

def findBlocks (l : LC) : List LC := findBlocksAux l.length l

/-- `_candidate_blocks`: the fenced blocks if any exist, else the whole text. -/
def candidateBlocks (l : LC) : List LC :=
  match findBlocks l with
  | [] => [l]
  | bs => bs

/-- Scan one region left to right; at each `{` or `[` attempt a decode. -/
def scanBlock : LC → Option (Json × LC)
  | [] => none
  | c :: rest =>
    if c = '{' || c = '[' then
      match decodeHere (c :: rest) with
      | some r => some r
      | none => scanBlock rest
    else scanBlock rest

/-- First region that yields a decode wins. -/
def scanRegions : List LC → Option (Json × LC)
  | [] => none
  | b :: bs =>
    match scanBlock b with
    | some r => some r
    | none => scanRegions bs

/-- `extract_first_json`: first JSON object/array in the text, preferring
fenced blocks; `none` models the Python `(None, None)`. -/
def extract_first_json (text : LC) : Option (Json × LC) :=
  scanRegions (candidateBlocks text)

/-! ## Verifier (`VerifierAgent.verify`) -/

/-- The Python exceptions `verify` can raise on adversarial parsed values. -/
inductive PyErr where
  | attributeError   -- `.get` on a non-dict
  | typeErr          -- `in` on a non-container, or item assignment on a list
  | unhashable       -- set membership/insertion with a list or dict value
  | reMatchTypeErr   -- `re.match` applied to a non-string
deriving DecidableEq, Repr

/-- One oracle exchange: the LLM call returns response text or raises. -/
inductive OReply where
  | ok (text : LC)
  | exn (msg : LC)

/-- How a type-compatibility check degraded, when it did. -/
inductive TcErr where
  | transport (msg : LC)  -- the LLM call itself raised
  | attrGet               -- `.get` on an extracted list raised inside the try
deriving Repr

/-- The `reason` reported by `_check_type_compatibility_with_llm`. -/
inductive TcReason where
  | oracleReason (v : Json)  -- `parsed.get("reason", "No reason provided")`
  | inconclusive             -- "LLM check inconclusive, assuming compatible"
  | failed (e : TcErr)       -- "LLM check failed (...), assuming compatible"

/-- One conversation-log entry from the verifier's type check. -/
structure TcLog where
  response : LC
  error : Option TcErr

/-- Python truthiness of a parsed value. -/
def numLexZero (lex : LC) : Bool :=
  let mantissa := lex.takeWhile (fun c => c ≠ 'e' && c ≠ 'E')
  mantissa.any Char.isDigit && (mantissa.filter Char.isDigit).all (· = '0')

def pyTruthy : Json → Bool
  | .null => false
  | .bool b => b
  | .num lex => !(numLexZero lex)
  | .int n => n != 0
  | .str s => !s.isEmpty
  | .arr es => !es.isEmpty
  | .obj kvs => !kvs.isEmpty

/-- `_check_type_compatibility_with_llm`, given the oracle's reply for this
call.  The returned `Bool` is the Python truthiness of `is_compatible`, which
is exactly how the caller consumes it.  All parsing happens inside the
Python `try`, so even the `.get`-on-a-list `AttributeError` is caught and
folded into the fail-open result. -/
def checkTypeCompat (reply : OReply) : Bool × TcReason × TcLog :=
  match reply with
  | .exn m => (true, .failed (.transport m), ⟨[], some (.transport m)⟩)
  | .ok t =>
    let parsed := (extract_first_json t).map Prod.fst
    let log : TcLog := ⟨t, none⟩
    match parsed with
    | some v =>
      if pyTruthy v then
        match v with
        | .obj kvs =>
          if dHasKey kvs "compatible".data then
            (pyTruthy (dGetD kvs "compatible".data (.bool false)),
             .oracleReason (dGetD kvs "reason".data (.str "No reason provided".data)),
             log)
          else (true, .inconclusive, log)
        | .arr es =>
          if es.any (fun e => jsonBeq e (.str "compatible".data)) then
            (true, .failed .attrGet, ⟨[], some .attrGet⟩)
          else (true, .inconclusive, log)
        | _ => (true, .inconclusive, log)
      else (true, .inconclusive, log)
    | none => (true, .inconclusive, log)

/-! ### `_extract_base_variables_from_constraints`

`re.findall(r"\b([a-zA-Z_][a-zA-Z0-9_]*(?:\(ref\))?(?:\.[a-zA-Z_][a-zA-Z0-9_]*\(ref\))*)", c)`
then keep matches containing `(ref)`.  The scanner below reproduces the
leftmost, greedy, non-overlapping matching of that pattern. -/

def isWordChar (c : Char) : Bool := c.isAlpha || c.isDigit || c = '_'

def isIdentStart (c : Char) : Bool := c.isAlpha || c = '_'

def refMarker : LC := "(ref)".data

/-- Consume an exact literal if present. -/
def dropLit (lit : LC) (l : LC) : Option LC :=
  if lit.isPrefixOf l then some (l.drop lit.length) else none

/-- Greedy `(?:\.[a-zA-Z_][a-zA-Z0-9_]*\(ref\))*`, all-or-nothing per
repetition. -/
def chainSegs (fuel : Nat) (acc : LC) (l : LC) : LC × LC :=
  match fuel with
  | 0 => (acc, l)
  | fuel + 1 =>
    match l with
    | '.' :: c :: rest =>
      if isIdentStart c then
        let ident := c :: rest.takeWhile isWordChar
        let r := rest.dropWhile isWordChar
        match dropLit refMarker r with
        | some r2 => chainSegs fuel (acc ++ '.' :: ident ++ refMarker) r2
        | none => (acc, l)
      else (acc, l)
    | _ => (acc, l)

/-- Match one token at an identifier-start character. -/
def matchToken (c : Char) (rest : LC) : LC × LC :=
  let ident := c :: rest.takeWhile isWordChar
  let r1 := rest.dropWhile isWordChar
  let (optRef, r2) :=
    match dropLit refMarker r1 with
    | some r => (refMarker, r)
    | none => (([] : LC), r1)
  chainSegs r2.length (ident ++ optRef) r2

/-- Scan for matches, tracking whether the previous character is a word
character (for `\b`). -/
def findTokensAux (fuel : Nat) (prevWord : Bool) (l : LC) : List LC :=
  match fuel with
  | 0 => []
  | fuel + 1 =>
    match l with
    | [] => []
    | c :: rest =>
      if !prevWord && isIdentStart c then
        let (tok, r) := matchToken c rest
        tok :: findTokensAux fuel (isWordChar (tok.getLastD c)) r
      else findTokensAux fuel (isWordChar c) rest

def findTokens (l : LC) : List LC := findTokensAux l.length false l

/-- Is `pat` a contiguous substring? -/
def isSubstr (pat : LC) : LC → Bool
  | [] => pat.isEmpty
  | c :: rest => pat.isPrefixOf (c :: rest) || isSubstr pat rest

/-- Set-insertion order: keep the first occurrence of each element. -/
def dedupLCAux (seen : List LC) : List LC → List LC
  | [] => []
  | x :: rest =>
    if seen.contains x then dedupLCAux seen rest
    else x :: dedupLCAux (x :: seen) rest

def extract_base_variables (cs : List LC) : List LC :=
  dedupLCAux [] (((cs.map findTokens).flatten).filter (isSubstr refMarker))

/-! ### `_validate_variable_name` -/

def denyStems : List LC :=
  ["obj".data, "node".data, "temp".data, "var".data, "item".data, "element".data]

/-- `$` in a non-multiline Python regex also matches just before one trailing
newline. -/
def stripNL (s : LC) : LC :=
  match s.reverse with
  | '\n' :: rest => rest.reverse
  | _ => s

/-- `re.match(r"^stem#?\d+$", s, re.IGNORECASE)` for one stem. -/
def denyCore (p : LC) (t : LC) : Bool :=
  match dropLit p t with
  | none => false
  | some r =>
    let r' := match r with | '#' :: rr => rr | _ => r
    !r'.isEmpty && r'.all Char.isDigit

def denyMatch (s : LC) : Bool :=
  let t := (stripNL s).map Char.toLower
  denyStems.any (fun p => denyCore p t)

/-- Validate one `variable` value against the base set.  Non-string values
reproduce the Python faults: unhashable values fail the set-membership test,
other non-strings fail inside `re.match`. -/
def validate_variable_name (v : Json) (base : List LC) : Except PyErr Bool :=
  match v with
  | .str s =>
    if base.contains s then .ok true
    else if denyMatch s then .ok false
    else if isSubstr refMarker s then .ok false
    else .ok true
  | .arr _ => .error .unhashable
  | .obj _ => .error .unhashable
  | _ => .error .reMatchTypeErr

/-! ### `verify` itself -/

/-- Validation failure reports, one constructor per `return False` site,
carrying the data the Python error string interpolates. -/
inductive VerifyError where
  | couldNotExtract (raw : LC)
  | missingResultField
  | invalidResultValue (r : Json)
  | satMissingValuation
  | valuationNotArray (v : Json)
  | emptyValuation
  | missingVariables (missing : List LC)     -- sorted
  | entryNotDict (idx : Nat)
  | entryMissingVariable (idx : Nat)
  | invalidVariableName (name : Json) (idx : Nat)
  | missingRefFields (idx : Nat) (missing : List LC)
  | typeIncompat (name : Json) (reason : TcReason)
  | nullConflict (names : List Json)

/-- Lexicographic comparison of Python strings (code points). -/
def lcLt : LC → LC → Bool
  | [], [] => false
  | [], _ :: _ => true
  | _ :: _, [] => false
  | a :: as, b :: bs => if a < b then true else if a = b then lcLt as bs else false

def insertLC (x : LC) : List LC → List LC
  | [] => [x]
  | y :: ys => if lcLt x y then x :: y :: ys else y :: insertLC x ys

/-- Python `sorted` on a set of strings. -/
def sortLC : List LC → List LC
  | [] => []
  | x :: xs => insertLC x (sortLC xs)

def hashable : Json → Bool
  | .arr _ => false
  | .obj _ => false
  | _ => true

/-- `{entry.get("variable") for entry in valuation if isinstance(entry, dict)}`:
an unhashable value raises at set construction. -/
def collectValuationVars : List Json → Except PyErr (List Json)
  | [] => .ok []
  | e :: rest =>
    match e with
    | .obj kvs =>
      let v := dGetD kvs "variable".data .null
      if hashable v then (collectValuationVars rest).map (v :: ·)
      else .error .unhashable
    | _ => collectValuationVars rest

structure VOut where
  isValid : Bool
  error : Option VerifyError
  output : Option Json
  logs : List TcLog
  tcNext : Nat

def invalidOut (err : VerifyError) (logs : List TcLog) (tcIdx : Nat) : VOut :=
  ⟨false, some err, none, logs, tcIdx⟩

def thLookup (th : List (LC × LC)) (s : LC) : Option LC :=
  match th with
  | [] => none
  | (k, d) :: rest => if k = s then some d else thLookup rest s

/-- The per-entry type-compatibility stage (`if type_hierarchy and "type" in
entry: ... if var_name in type_hierarchy: ...`).  Returns the failure if the
oracle reported incompatible, the new log entries, and the oracle call count
after the stage. -/
def typeCheckStage (tc : Nat → OReply) (tcIdx : Nat) (th : List (LC × LC))
    (kvs : List (LC × Json)) :
    Except PyErr (Option (Json × TcReason) × List TcLog × Nat) :=
  if !th.isEmpty && dHasKey kvs "type".data then
    let varName := dGetD kvs "variable".data (.str [])
    match varName with
    | .str s =>
      match thLookup th s with
      | some _ =>
        let (compat, reason, log) := checkTypeCompat (tc tcIdx)
        .ok (if compat then none else some (varName, reason), [log], tcIdx + 1)
      | none => .ok (none, [], tcIdx)
    | .arr _ => .error .unhashable
    | .obj _ => .error .unhashable
    | _ => .ok (none, [], tcIdx)
  else .ok (none, [], tcIdx)

inductive EntriesOut where
  | failed (err : VerifyError) (logs : List TcLog) (tcNext : Nat)
  | passed (logs : List TcLog) (tcNext : Nat)

/-- The `for idx, entry in enumerate(valuation)` loop. -/
def checkEntries (tc : Nat → OReply) (th : List (LC × LC)) (base : List LC)
    (idx tcIdx : Nat) (logs : List TcLog) : List Json → Except PyErr EntriesOut
  | [] => .ok (.passed logs tcIdx)
  | e :: rest =>
    match e with
    | .obj kvs =>
      if !dHasKey kvs "variable".data then
        .ok (.failed (.entryMissingVariable idx) logs tcIdx)
      else
        let v := dGetD kvs "variable".data (.str [])
        match validate_variable_name v base with
        | .error er => .error er
        | .ok nameOk =>
          if !nameOk then .ok (.failed (.invalidVariableName v idx) logs tcIdx)
          else
            let isRef : Bool := dHasKey kvs "type".data &&
              !(jsonBeq (dGetD kvs "type".data .null) (.str "null".data))
            let missing :=
              ["type".data, "newObject".data, "trueRef".data, "reference".data].filter
                (fun k => !dHasKey kvs k)
            if isRef && !missing.isEmpty then
              .ok (.failed (.missingRefFields idx missing) logs tcIdx)
            else
              match typeCheckStage tc tcIdx th kvs with
              | .error er => .error er
              | .ok (some (vn, reason), newLogs, tc') =>
                .ok (.failed (.typeIncompat vn reason) (logs ++ newLogs) tc')
              | .ok (none, newLogs, tc') =>
                checkEntries tc th base (idx + 1) tc' (logs ++ newLogs) rest
    | _ => .ok (.failed (.entryNotDict idx) logs tcIdx)

def entryVar (kvs : List (LC × Json)) : Json := dGetD kvs "variable".data .null

/-- Variables of entries with `type == "null"`.  Entries here are dicts with
hashable (string) variables — the earlier stages returned otherwise. -/
def nullVars : List Json → List Json
  | [] => []
  | .obj kvs :: rest =>
    if jsonBeq (dGetD kvs "type".data .null) (.str "null".data)
    then entryVar kvs :: nullVars rest else nullVars rest
  | _ :: rest => nullVars rest

/-- Variables of entries in the `elif entry.get("reference") is not None`
branch: the `type == "null"` test failed and the reference is non-null. -/
def nonNullVars : List Json → List Json
  | [] => []
  | .obj kvs :: rest =>
    if !jsonBeq (dGetD kvs "type".data .null) (.str "null".data) &&
       !jsonBeq (dGetD kvs "reference".data .null) .null
    then entryVar kvs :: nonNullVars rest else nonNullVars rest
  | _ :: rest => nonNullVars rest

def dedupJsonAux (seen : List Json) : List Json → List Json
  | [] => []
  | x :: rest =>
    if seen.any (jsonBeq x) then dedupJsonAux seen rest
    else x :: dedupJsonAux (x :: seen) rest

/-- `null_refs & non_null_refs`. -/
def consistencyConflicts (es : List Json) : List Json :=
  dedupJsonAux [] ((nullVars es).filter (fun v => (nonNullVars es).any (jsonBeq v)))

def resultAllowed (r : Json) : Bool :=
  jsonBeq r (.str "SAT".data) || jsonBeq r (.str "UNSAT".data) ||
  jsonBeq r (.str "UNKNOWN".data)

/-- The `result == "SAT"` branch of `verify`. -/
def satStage (tc : Nat → OReply) (tcIdx : Nat) (cs : List LC)
    (th : List (LC × LC)) (full : Json) (kvs : List (LC × Json)) :
    Except PyErr VOut :=
  match dLookup kvs "valuation".data with
  | none => .ok (invalidOut .satMissingValuation [] tcIdx)
  | some vj =>
    match vj with
    | .arr es =>
      match es with
      | [] => .ok (invalidOut .emptyValuation [] tcIdx)
      | _ :: _ =>
        let base := extract_base_variables cs
        match collectValuationVars es with
        | .error er => .error er
        | .ok vars =>
          let missing := base.filter (fun b => !(vars.any (jsonBeq (.str b))))
          if !missing.isEmpty then
            .ok (invalidOut (.missingVariables (sortLC missing)) [] tcIdx)
          else
            match checkEntries tc th base 0 tcIdx [] es with
            | .error er => .error er
            | .ok (.failed err logs tc') => .ok (invalidOut err logs tc')
            | .ok (.passed logs tc') =>
              let conflicts := consistencyConflicts es
              if !conflicts.isEmpty then
                .ok (invalidOut (.nullConflict conflicts) logs tc')
              else .ok ⟨true, none, some full, logs, tc'⟩
    | _ => .ok (invalidOut (.valuationNotArray vj) [] tcIdx)

/-- `VerifierAgent.verify`.  `tcIdx` counts type-compatibility oracle calls so
far (instrumentation: `tc` is the reply stream).  The heap-state argument is
accepted and, as in the source, never used. -/
def verify (tc : Nat → OReply) (tcIdx : Nat) (solverOutput : Option Json)
    (rawOutput : LC) (cs : List LC) (th : List (LC × LC))
    (_heapState : Option Json) : Except PyErr VOut :=
  match solverOutput with
  | none => .ok (invalidOut (.couldNotExtract rawOutput) [] tcIdx)
  | some v =>
    match v with
    | .obj kvs =>
      match dLookup kvs "result".data with
      | none => .ok (invalidOut .missingResultField [] tcIdx)
      | some r =>
        if !resultAllowed r then .ok (invalidOut (.invalidResultValue r) [] tcIdx)
        else if jsonBeq r (.str "SAT".data) then satStage tc tcIdx cs th v kvs
        else .ok ⟨true, none, some v, [], tcIdx⟩
    | .arr es =>
      -- `"result" not in <list>` is membership; `.get` then raises
      if es.any (fun e => jsonBeq e (.str "result".data)) then .error .attributeError
      else .ok (invalidOut .missingResultField [] tcIdx)
    | .str s =>
      -- `"result" not in <str>` is substring search; `.get` then raises
      if isSubstr "result".data s then .error .attributeError
      else .ok (invalidOut .missingResultField [] tcIdx)
    | _ => .error .typeErr

/-! ## Orchestrator (`MultiAgentOrchestrator.solve`) -/

/-- `SolverAgent.solve` catches its own exceptions and degrades to a `None`
candidate with an error string as the raw text. -/
def solverSolve (reply : OReply) : Option Json × LC :=
  match reply with
  | .ok t => ((extract_first_json t).map Prod.fst, t)
  | .exn m => (none, "Error during Solver invocation: ".data ++ m)

/-- `RefinerAgent.refine`, same shape. -/
def refinerRefine (reply : OReply) : Option Json × LC :=
  match reply with
  | .ok t => ((extract_first_json t).map Prod.fst, t)
  | .exn m => (none, "Error during Refiner invocation: ".data ++ m)

/-- The dictionaries `solve` returns, structured by return site. -/
inductive SolveOut where
  | success (dict : List (LC × Json)) (iterations : Nat)
  | exhausted (raw : LC) (err : Option VerifyError) (iterations : Nat)
  | fellThrough (raw : LC) (iterations : Nat)

/-- The `while iteration <= self.max_retries` loop.  `fuel` equals
`maxRetries + 1 - iteration`, so `fuel > 0` is exactly the loop condition.
`refIdx` counts Refiner invocations, `tcIdx` type-compatibility oracle calls;
both are returned with the outcome. -/
def solveLoop (gen : OReply) (ref : Nat → OReply) (tc : Nat → OReply)
    (cs : List LC) (th : List (LC × LC)) (hs : Option Json) (maxRetries : Nat)
    (fuel iteration refIdx tcIdx : Nat) (raw : LC) :
    Except PyErr (SolveOut × Nat × Nat) :=
  match fuel with
  | 0 => .ok (.fellThrough raw iteration, refIdx, tcIdx)
  | fuel + 1 =>
    let iter := iteration + 1
    let pr : (Option Json × LC) × Nat :=
      if iter = 1 then (solverSolve gen, refIdx)
      else (refinerRefine (ref refIdx), refIdx + 1)
    match verify tc tcIdx pr.1.1 pr.1.2 cs th hs with
    | .error er => .error er
    | .ok r =>
      if r.isValid then
        match r.output with
        | some (.obj kvs) =>
          let d := dSet kvs "iterations".data (.int iter)
          let d2 := if dHasKey d "raw".data then d else dSet d "raw".data (.str pr.1.2)
          .ok (.success d2 iter, pr.2, r.tcNext)
        | _ => .error .typeErr
      else if maxRetries ≤ iter then
        .ok (.exhausted pr.1.2 r.error iter, pr.2, r.tcNext)
      else solveLoop gen ref tc cs th hs maxRetries fuel iter pr.2 r.tcNext pr.1.2

/-- `MultiAgentOrchestrator.solve` with the three oracles made explicit. -/
def solve (gen : OReply) (ref : Nat → OReply) (tc : Nat → OReply)
    (cs : List LC) (th : List (LC × LC)) (hs : Option Json) (maxRetries : Nat) :
    Except PyErr (SolveOut × Nat × Nat) :=
  solveLoop gen ref tc cs th hs maxRetries (maxRetries + 1) 0 0 0 []

/-! ## Declarative characterizations used to state the claims -/

/-- A decode attempt at character position `i` of a region, as the extractor
performs it: only at `{` or `[`, position-anchored. -/
def decodeAt (block : LC) (i : Nat) : Option (Json × LC) :=
  match block.drop i with
  | [] => none
  | c :: rest => if c = '{' || c = '[' then decodeHere (c :: rest) else none

/-- No position of the region decodes. -/
def NoDecode (block : LC) : Prop := ∀ i, decodeAt block i = none

/-- `(v, s)` is the first JSON value of the region list: some block has a
decodable position, all earlier blocks have none, and all earlier positions
of that block fail. -/
def FirstJson (bs : List LC) (v : Json) (s : LC) : Prop :=
  ∃ (k : Nat) (blk : LC) (i : Nat), bs[k]? = some blk ∧ decodeAt blk i = some (v, s) ∧
    (∀ (k' : Nat) (blk' : LC), k' < k → bs[k']? = some blk' → NoDecode blk') ∧
    (∀ j, j < i → decodeAt blk j = none)

/-- Every region is free of decodable JSON. -/
def NoJsonAnywhere (bs : List LC) : Prop :=
  ∀ (k : Nat) (blk : LC), bs[k]? = some blk → NoDecode blk

/-- An entry whose `variable` value (if any) is a string; the shapes on which
`verify` is exception-free. -/
def entrySafe : Json → Bool
  | .obj kvs =>
    match dLookup kvs "variable".data with
    | none => true
    | some (.str _) => true
    | some _ => false
  | _ => true

/-- Candidates on which `verify` is exception-free: extraction failures,
arrays not containing the string `"result"`, and objects whose valuation
entries are `entrySafe`. -/
def candSafe : Option Json → Bool
  | none => true
  | some (.obj kvs) =>
    match dLookup kvs "valuation".data with
    | some (.arr es) => es.all entrySafe
    | _ => true
  | some (.arr es) => !(es.any (fun e => jsonBeq e (.str "result".data)))
  | some _ => false

/-- An oracle reply whose extracted candidate is safe. -/
def replySafe : OReply → Bool
  | .ok t => candSafe ((extract_first_json t).map Prod.fst)
  | .exn _ => true

/-- `r` is not a successful validation (either invalid or an exception). -/
def NotValidated (r : Except PyErr VOut) : Prop :=
  ∀ v, r = .ok v → v.isValid = false

/-! ## Concrete fixtures (from the spec's literal test cases) -/

/-- A type-compatibility oracle that always raises. -/
def tcRaise : Nat → OReply := fun _ => OReply.exn "boom".data

/-- The two constraints of the literal end-to-end scenario. -/
def csPair : List LC := ["head(ref) != null".data, "head(ref).next(ref) == null".data]

/-- A well-formed reference entry for `head(ref)`. -/
def entryHeadKvs : List (LC × Json) :=
  [("variable".data, Json.str "head(ref)".data),
   ("type".data, Json.str "LNode;".data),
   ("newObject".data, Json.bool true),
   ("trueRef".data, Json.bool false),
   ("reference".data, Json.num ['1'])]

def entryHead : Json := Json.obj entryHeadKvs

/-- A null entry for `head(ref).next(ref)`. -/
def entryNextNull : Json :=
  Json.obj [("variable".data, Json.str "head(ref).next(ref)".data),
            ("type".data, Json.str "null".data),
            ("newObject".data, Json.bool false),
            ("trueRef".data, Json.bool true),
            ("reference".data, Json.null)]

/-- The literal SAT candidate of the end-to-end scenario. -/
def candGood : Json :=
  Json.obj [("result".data, Json.str "SAT".data),
            ("valuation".data, Json.arr [entryHead, entryNextNull])]

/-- The same candidate with the `head(ref).next(ref)` entry omitted. -/
def candMissingNext : Json :=
  Json.obj [("result".data, Json.str "SAT".data),
            ("valuation".data, Json.arr [entryHead])]

/-- A candidate containing an invented `obj#1` entry. -/
def entryObj1Kvs : List (LC × Json) :=
  [("variable".data, Json.str "obj#1".data),
   ("type".data, Json.str "LNode;".data),
   ("newObject".data, Json.bool true),
   ("trueRef".data, Json.bool false),
   ("reference".data, Json.num ['3'])]

def entryObj1 : Json := Json.obj entryObj1Kvs

def candObj1Kvs : List (LC × Json) :=
  [("result".data, Json.str "SAT".data),
   ("valuation".data, Json.arr [entryHead, entryNextNull, entryObj1])]

def candObj1 : Json := Json.obj candObj1Kvs

/-- Two entries for `head(ref)`: one `type: "null"`, one with reference 1. -/
def entryHeadNull : Json :=
  Json.obj [("variable".data, Json.str "head(ref)".data),
            ("type".data, Json.str "null".data),
            ("newObject".data, Json.bool false),
            ("trueRef".data, Json.bool true),
            ("reference".data, Json.null)]

def candConflict : Json :=
  Json.obj [("result".data, Json.str "SAT".data),
            ("valuation".data, Json.arr [entryHeadNull, entryHead, entryNextNull])]

/-- A single entry that has `type: "null"` and a non-null reference at once. -/
def entryBothKvs : List (LC × Json) :=
  [("variable".data, Json.str "head(ref)".data),
   ("type".data, Json.str "null".data),
   ("reference".data, Json.num ['1'])]

def entryBoth : Json := Json.obj entryBothKvs

def candBoth : Json :=
  Json.obj [("result".data, Json.str "SAT".data),
            ("valuation".data, Json.arr [entryBoth, entryNextNull])]

/-- A type hierarchy keyed by the variable's root, as the repository's own
examples supply it. -/
def thRoot : List (LC × LC) := [("head".data, "LNode; hierarchy".data)]

/-- A type hierarchy keyed by the full variable path. -/
def thFull : List (LC × LC) := [("head(ref)".data, "LNode; hierarchy".data)]

/-- The literal Generator output of the end-to-end scenario. -/
def genGoodText : LC :=
  ("```json\n\x7b\"result\":\"SAT\",\"valuation\":[\x7b\"variable\":\"head(ref)\"," ++
   "\"type\":\"LNode;\",\"newObject\":true,\"trueRef\":false,\"reference\":1\x7d," ++
   "\x7b\"variable\":\"head(ref).next(ref)\",\"type\":\"null\",\"newObject\":false," ++
   "\"trueRef\":true,\"reference\":null\x7d]\x7d\n```").data

/-- A reply with no JSON at all. -/
def genNoJson : OReply := OReply.ok "reasoning, no answer".data

/-- The fence-preference text: a bare brace in prose and a fenced object. -/
def fencedText : LC :=
  "I use \x7bx\x7d here. ```json\n\x7b\"result\": \"SAT\"\x7d\n```".data

/-- The oracle response whose verdict has a falsy but non-`false`
`compatible` value. -/
def emptyCompatText : LC := "\x7b\"compatible\": \"\"\x7d".data

/-- The sole fenced-block content of `fencedText`. -/
def fencedBlockContent : LC := "\x7b\"result\": \"SAT\"\x7d\n".data

/-- A text whose only fenced block holds no JSON; the bare brace outside the
fence is not a candidate region. -/
def noJsonText : LC := "``` hello ``` \x7bx\x7d".data

/-- A SAT candidate for `["head(ref).next(ref) == null"]` with no entry for
the strict prefix `head(ref)`. -/
def candNoHead : Json :=
  Json.obj [("result".data, Json.str "SAT".data),
            ("valuation".data, Json.arr [entryNextNull])]


/-! ## Shared lemmas -/

theorem jsonBeq_str_iff (a b : LC) : jsonBeq (.str a) (.str b) = true ↔ a = b := by
  simp [jsonBeq]

theorem jsonBeq_eq_str (x : Json) (l : LC) : jsonBeq x (.str l) = true ↔ x = .str l := by
  cases x <;> simp [jsonBeq]

theorem jsonBeq_eq_null (x : Json) : jsonBeq x .null = true ↔ x = .null := by
  cases x <;> simp [jsonBeq]

theorem mem_dedupLCAux {x : LC} : ∀ (seen l : List LC), x ∈ dedupLCAux seen l → x ∈ l := by
  intro seen l
  induction l generalizing seen with
  | nil => simp [dedupLCAux]
  | cons y rest ih =>
    intro h
    simp only [dedupLCAux] at h
    split at h
    · exact List.mem_cons_of_mem _ (ih _ h)
    · rcases List.mem_cons.mp h with rfl | h
      · exact List.mem_cons_self _ _
      · exact List.mem_cons_of_mem _ (ih _ h)

/-- Every extracted base variable contains the reference marker. -/
theorem base_hasRef {cs : List LC} {b : LC} (h : b ∈ extract_base_variables cs) :
    isSubstr refMarker b = true := by
  have h2 := mem_dedupLCAux _ _ h
  rw [List.mem_filter] at h2
  exact h2.2

/-- Claim C10: base-variable extraction collects only the maximal matched
chains: with `head(ref)` occurring only inside `head(ref).next(ref)`, the
base set holds the long chain but not the prefix, and a SAT valuation with no
`head(ref)` entry validates. -/
theorem C10_maximal_chains :
    extract_base_variables ["head(ref).next(ref) == null".data] =
      ["head(ref).next(ref)".data] ∧
    "head(ref)".data ∉ extract_base_variables ["head(ref).next(ref) == null".data] ∧
    verify tcRaise 0 (some candNoHead) [] ["head(ref).next(ref) == null".data] [] none =
      .ok ⟨true, none, some candNoHead, [], 0⟩ :=
  ⟨rfl, by decide, rfl⟩

/-- Claim C3: a SAT candidate whose valuation variables do not cover the
base-variable set fails with a missing-variable error listing the sorted
missing paths; in particular omitting `head(ref).next(ref)` for the literal
two-constraint set fails naming that path. -/
theorem C3_exhaustiveness :
    (∀ (tc : Nat → OReply) (tcIdx : Nat) (kvs : List (LC × Json)) (raw : LC)
       (cs : List LC) (th : List (LC × LC)) (hs : Option Json) (es : List Json)
       (vars : List Json),
      dLookup kvs "result".data = some (.str "SAT".data) →
      dLookup kvs "valuation".data = some (.arr es) →
      es ≠ [] →
      collectValuationVars es = .ok vars →
      (extract_base_variables cs).filter
          (fun b => !(vars.any (jsonBeq (.str b)))) ≠ [] →
      verify tc tcIdx (some (.obj kvs)) raw cs th hs =
        .ok (invalidOut (.missingVariables (sortLC
          ((extract_base_variables cs).filter
            (fun b => !(vars.any (jsonBeq (.str b))))))) [] tcIdx)) ∧
    verify tcRaise 0 (some candMissingNext) [] csPair [] none =
      .ok (invalidOut (.missingVariables ["head(ref).next(ref)".data]) [] 0) := by
  constructor
  · intro tc tcIdx kvs raw cs th hs es vars hres hval hne hcol hmiss
    cases es with
    | nil => exact absurd rfl hne
    | cons e es' =>
      cases hm : (extract_base_variables cs).filter
          (fun b => !(vars.any (jsonBeq (.str b)))) with
      | nil => exact absurd hm hmiss
      | cons m ms =>
        simp only [verify, hres, satStage, hval, hcol, hm]
        rfl
  · rfl

/-- Witness for C3 at the literal inputs. -/
theorem C3_exhaustiveness_witness :
    verify tcRaise 0 (some candMissingNext) [] csPair [] none =
      .ok (invalidOut (.missingVariables ["head(ref).next(ref)".data]) [] 0) :=
  C3_exhaustiveness.1 tcRaise 0
    [("result".data, Json.str "SAT".data), ("valuation".data, Json.arr [entryHead])]
    [] csPair [] none [entryHead] [Json.str "head(ref)".data]
    rfl rfl (List.cons_ne_nil _ _) rfl (by decide)

/-- Claim C1 (code bug): with `max_retries = 2` and every attempt failing
validation, `solve` stops after iteration 2 (one Solver call, one Refiner
call) and returns UNKNOWN with `iterations = 2` — not the documented three
attempts. -/
theorem C1_retry_bound (gen : OReply) (ref : Nat → OReply) (tc : Nat → OReply)
    (cs : List LC) (th : List (LC × LC)) (hs : Option Json)
    (c1 : Option Json) (r1 : LC) (v1 : VOut) (c2 : Option Json) (r2 : LC) (v2 : VOut)
    (hgen : solverSolve gen = (c1, r1))
    (hv1 : verify tc 0 c1 r1 cs th hs = .ok v1) (hb1 : v1.isValid = false)
    (href : refinerRefine (ref 0) = (c2, r2))
    (hv2 : verify tc v1.tcNext c2 r2 cs th hs = .ok v2) (hb2 : v2.isValid = false) :
    solve gen ref tc cs th hs 2 = .ok (.exhausted r2 v2.error 2, 1, v2.tcNext) := by
  simp [solve, solveLoop, hgen, hv1, hb1, href, hv2, hb2]

/-- Witness for C1: both oracles produce no JSON. -/
theorem C1_retry_bound_witness :
    solve genNoJson (fun _ => genNoJson) tcRaise [] [] none 2 =
      .ok (.exhausted "reasoning, no answer".data
        (some (.couldNotExtract "reasoning, no answer".data)) 2, 1, 0) :=
  C1_retry_bound genNoJson (fun _ => genNoJson) tcRaise [] [] none
    none "reasoning, no answer".data
    (invalidOut (.couldNotExtract "reasoning, no answer".data) [] 0)
    none "reasoning, no answer".data
    (invalidOut (.couldNotExtract "reasoning, no answer".data) [] 0)
    rfl rfl rfl rfl rfl rfl

/-- Claim C9: if the Generator's first output validates, `solve` returns at
iteration 1 with the candidate's own fields, `raw` defaulted to the
Generator's raw text when absent, and zero Refiner invocations. -/
theorem C9_success_short_circuit (gen : OReply) (ref : Nat → OReply)
    (tc : Nat → OReply) (cs : List LC) (th : List (LC × LC)) (hs : Option Json)
    (maxRetries : Nat) (cand : Option Json) (raw : LC) (r : VOut)
    (kvs : List (LC × Json))
    (hgen : solverSolve gen = (cand, raw))
    (hver : verify tc 0 cand raw cs th hs = .ok r)
    (hval : r.isValid = true)
    (hout : r.output = some (.obj kvs)) :
    solve gen ref tc cs th hs maxRetries =
      .ok (.success
        (if dHasKey (dSet kvs "iterations".data (.int 1)) "raw".data
         then dSet kvs "iterations".data (.int 1)
         else dSet (dSet kvs "iterations".data (.int 1)) "raw".data (.str raw)) 1,
        0, r.tcNext) := by
  simp [solve, solveLoop, hgen, hver, hval, hout]

/-- Witness for C9: the literal end-to-end scenario. -/
theorem C9_success_short_circuit_witness :
    solve (OReply.ok genGoodText) (fun _ => genNoJson) tcRaise csPair [] none 2 =
      .ok (.success
        (if dHasKey (dSet [("result".data, Json.str "SAT".data),
             ("valuation".data, Json.arr [entryHead, entryNextNull])]
             "iterations".data (.int 1)) "raw".data
         then dSet [("result".data, Json.str "SAT".data),
             ("valuation".data, Json.arr [entryHead, entryNextNull])]
             "iterations".data (.int 1)
         else dSet (dSet [("result".data, Json.str "SAT".data),
             ("valuation".data, Json.arr [entryHead, entryNextNull])]
             "iterations".data (.int 1)) "raw".data (.str genGoodText)) 1,
        0, 0) :=
  C9_success_short_circuit (OReply.ok genGoodText) (fun _ => genNoJson) tcRaise
    csPair [] none 2 (some candGood) genGoodText
    ⟨true, none, some candGood, [], 0⟩
    [("result".data, Json.str "SAT".data),
     ("valuation".data, Json.arr [entryHead, entryNextNull])]
    rfl rfl rfl rfl


/-! ## Safety of `verify` on safe candidates (for claim C2) -/

theorem entrySafe_var {kvs : List (LC × Json)} (h : entrySafe (.obj kvs) = true) :
    dLookup kvs "variable".data = none ∨
    ∃ s, dLookup kvs "variable".data = some (.str s) := by
  simp only [entrySafe] at h
  cases hl : dLookup kvs "variable".data with
  | none => exact .inl rfl
  | some v =>
    cases v <;> rw [hl] at h <;> first
      | exact .inr ⟨_, rfl⟩
      | exact absurd h (by simp)

theorem collect_ok : ∀ (es : List Json), (∀ e ∈ es, entrySafe e = true) →
    ∃ vars, collectValuationVars es = .ok vars := by
  intro es
  induction es with
  | nil => exact fun _ => ⟨[], rfl⟩
  | cons e rest ih =>
    intro h
    obtain ⟨vars, hv⟩ := ih (fun x hx => h x (List.mem_cons_of_mem _ hx))
    cases e with
    | obj kvs =>
      have he := h _ (List.mem_cons_self _ _)
      rcases entrySafe_var he with hn | ⟨s, hs⟩
      · exact ⟨Json.null :: vars,
          by simp [collectValuationVars, dGetD, hn, hashable, hv, Except.map]⟩
      · exact ⟨Json.str s :: vars,
          by simp [collectValuationVars, dGetD, hs, hashable, hv, Except.map]⟩
    | null => exact ⟨vars, by simp [collectValuationVars, hv]⟩
    | bool b => exact ⟨vars, by simp [collectValuationVars, hv]⟩
    | num l => exact ⟨vars, by simp [collectValuationVars, hv]⟩
    | int n => exact ⟨vars, by simp [collectValuationVars, hv]⟩
    | str s => exact ⟨vars, by simp [collectValuationVars, hv]⟩
    | arr a => exact ⟨vars, by simp [collectValuationVars, hv]⟩

theorem validate_str_ok (s : LC) (base : List LC) :
    ∃ b, validate_variable_name (.str s) base = .ok b := by
  simp only [validate_variable_name]
  split
  · exact ⟨_, rfl⟩
  · split
    · exact ⟨_, rfl⟩
    · split
      · exact ⟨_, rfl⟩
      · exact ⟨_, rfl⟩

theorem typeCheckStage_ok (tc : Nat → OReply) (tcIdx : Nat) (th : List (LC × LC))
    (kvs : List (LC × Json)) (s : LC)
    (hv : dGetD kvs "variable".data (.str []) = .str s) :
    ∃ o, typeCheckStage tc tcIdx th kvs = .ok o := by
  simp only [typeCheckStage, hv]
  split
  · cases thLookup th s
    · exact ⟨_, rfl⟩
    · exact ⟨_, rfl⟩
  · exact ⟨_, rfl⟩

theorem checkEntries_ok (tc : Nat → OReply) (th : List (LC × LC)) (base : List LC) :
    ∀ (es : List Json) (idx tcIdx : Nat) (logs : List TcLog),
      (∀ e ∈ es, entrySafe e = true) →
      ∃ out, checkEntries tc th base idx tcIdx logs es = .ok out := by
  intro es
  induction es with
  | nil => exact fun _ _ _ _ => ⟨_, rfl⟩
  | cons e rest ih =>
    intro idx tcIdx logs h
    have hrest := fun x hx => h x (List.mem_cons_of_mem _ hx)
    cases e with
    | obj kvs =>
      have he := h _ (List.mem_cons_self _ _)
      cases hk : dHasKey kvs "variable".data with
      | false =>
        exact ⟨.failed (.entryMissingVariable idx) logs tcIdx,
          by simp [checkEntries, hk]⟩
      | true =>
        rcases entrySafe_var he with hn | ⟨s, hs⟩
        · rw [dHasKey, hn] at hk; simp at hk
        · have hgd : dGetD kvs "variable".data (.str []) = .str s := by
            simp [dGetD, hs]
          obtain ⟨b, hb⟩ := validate_str_ok s base
          cases b with
          | false =>
            exact ⟨.failed (.invalidVariableName (.str s) idx) logs tcIdx,
              by simp [checkEntries, hk, hgd, hb]⟩
          | true =>
            simp only [checkEntries, hk, hgd, hb, Bool.not_true, Bool.false_eq_true,
              if_false]
            split
            · exact ⟨_, rfl⟩
            · obtain ⟨o, ho⟩ := typeCheckStage_ok tc tcIdx th kvs s hgd
              rw [ho]
              obtain ⟨fail, logs', tc'⟩ := o
              cases fail with
              | some p => exact ⟨_, rfl⟩
              | none => exact ih (idx + 1) tc' (logs ++ logs') hrest
    | null => exact ⟨_, rfl⟩
    | bool b => exact ⟨_, rfl⟩
    | num l => exact ⟨_, rfl⟩
    | int n => exact ⟨_, rfl⟩
    | str s => exact ⟨_, rfl⟩
    | arr a => exact ⟨_, rfl⟩

theorem satStage_ok (tc : Nat → OReply) (tcIdx : Nat) (cs : List LC)
    (th : List (LC × LC)) (full : Json) (kvs : List (LC × Json))
    (h : ∀ es, dLookup kvs "valuation".data = some (.arr es) →
         ∀ e ∈ es, entrySafe e = true) :
    ∃ r, satStage tc tcIdx cs th full kvs = .ok r ∧
      (r.isValid = true → r.output = some full) := by
  cases hl : dLookup kvs "valuation".data with
  | none =>
    exact ⟨invalidOut .satMissingValuation [] tcIdx, by simp [satStage, hl],
      by intro hh; simp [invalidOut] at hh⟩
  | some vj =>
    cases vj with
    | arr es =>
      cases es with
      | nil =>
        exact ⟨invalidOut .emptyValuation [] tcIdx, by simp [satStage, hl],
          by intro hh; simp [invalidOut] at hh⟩
      | cons e es' =>
        obtain ⟨vars, hvars⟩ := collect_ok _ (h _ hl)
        by_cases hm : ((extract_base_variables cs).filter
            (fun b => !(vars.any (jsonBeq (.str b))))).isEmpty = true
        · obtain ⟨out, hout⟩ :=
            checkEntries_ok tc th (extract_base_variables cs) (e :: es') 0 tcIdx []
              (h _ hl)
          cases out with
          | failed err logs tc' =>
            exact ⟨invalidOut err logs tc', by simp [satStage, hl, hvars, hm, hout],
              by intro hh; simp [invalidOut] at hh⟩
          | passed logs tc' =>
            by_cases hcf : (consistencyConflicts (e :: es')).isEmpty = true
            · exact ⟨⟨true, none, some full, logs, tc'⟩,
                by simp [satStage, hl, hvars, hm, hout, hcf], fun _ => rfl⟩
            · exact ⟨invalidOut (.nullConflict (consistencyConflicts (e :: es'))) logs tc',
                by simp [satStage, hl, hvars, hm, hout, hcf],
                by intro hh; simp [invalidOut] at hh⟩
        · exact ⟨invalidOut (.missingVariables (sortLC ((extract_base_variables cs).filter
              (fun b => !(vars.any (jsonBeq (.str b))))))) [] tcIdx,
            by simp [satStage, hl, hvars, hm], by intro hh; simp [invalidOut] at hh⟩
    | null =>
      exact ⟨invalidOut (.valuationNotArray .null) [] tcIdx, by simp [satStage, hl],
        by intro hh; simp [invalidOut] at hh⟩
    | bool bb =>
      exact ⟨invalidOut (.valuationNotArray (.bool bb)) [] tcIdx, by simp [satStage, hl],
        by intro hh; simp [invalidOut] at hh⟩
    | num l =>
      exact ⟨invalidOut (.valuationNotArray (.num l)) [] tcIdx, by simp [satStage, hl],
        by intro hh; simp [invalidOut] at hh⟩
    | int n =>
      exact ⟨invalidOut (.valuationNotArray (.int n)) [] tcIdx, by simp [satStage, hl],
        by intro hh; simp [invalidOut] at hh⟩
    | str ss =>
      exact ⟨invalidOut (.valuationNotArray (.str ss)) [] tcIdx, by simp [satStage, hl],
        by intro hh; simp [invalidOut] at hh⟩
    | obj oo =>
      exact ⟨invalidOut (.valuationNotArray (.obj oo)) [] tcIdx, by simp [satStage, hl],
        by intro hh; simp [invalidOut] at hh⟩

theorem verify_safe (c : Option Json) (hc : candSafe c = true) (tc : Nat → OReply)
    (i : Nat) (raw : LC) (cs : List LC) (th : List (LC × LC)) (hs : Option Json) :
    ∃ r, verify tc i c raw cs th hs = .ok r ∧
      (r.isValid = true → ∃ kvs, r.output = some (.obj kvs)) := by
  cases c with
  | none =>
    exact ⟨invalidOut (.couldNotExtract raw) [] i, rfl,
      by intro hh; simp [invalidOut] at hh⟩
  | some v =>
    cases v with
    | obj kvs =>
      cases hr : dLookup kvs "result".data with
      | none =>
        exact ⟨invalidOut .missingResultField [] i, by simp [verify, hr],
          by intro hh; simp [invalidOut] at hh⟩
      | some r0 =>
        by_cases ha : resultAllowed r0 = true
        · by_cases hsat : jsonBeq r0 (.str "SAT".data) = true
          · have hsafe : ∀ es, dLookup kvs "valuation".data = some (.arr es) →
                ∀ e ∈ es, entrySafe e = true := by
              intro es hl e he
              simp only [candSafe, hl] at hc
              exact (List.all_eq_true.mp hc) e he
            obtain ⟨r, hrr, hout⟩ := satStage_ok tc i cs th (.obj kvs) kvs hsafe
            refine ⟨r, ?_, fun hv => ⟨kvs, hout hv⟩⟩
            simp [verify, hr, ha, hsat, hrr]
          · exact ⟨⟨true, none, some (.obj kvs), [], i⟩,
              by simp [verify, hr, ha, hsat], fun _ => ⟨kvs, rfl⟩⟩
        · exact ⟨invalidOut (.invalidResultValue r0) [] i, by simp [verify, hr, ha],
            by intro hh; simp [invalidOut] at hh⟩
    | arr es =>
      simp only [candSafe] at hc
      have hfa : (es.any fun e => jsonBeq e (Json.str "result".data)) = false := by
        simpa using hc
      exact ⟨invalidOut .missingResultField [] i, by simp [verify, hfa],
        by intro hh; simp [invalidOut] at hh⟩
    | null => simp [candSafe] at hc
    | bool b => simp [candSafe] at hc
    | num l => simp [candSafe] at hc
    | int n => simp [candSafe] at hc
    | str s => simp [candSafe] at hc

theorem replySafe_gen {rep : OReply} (h : replySafe rep = true) :
    candSafe (solverSolve rep).1 = true := by
  cases rep with
  | ok t => exact h
  | exn m => rfl

theorem replySafe_ref {rep : OReply} (h : replySafe rep = true) :
    candSafe (refinerRefine rep).1 = true := by
  cases rep with
  | ok t => exact h
  | exn m => rfl

theorem solveLoop_safe (gen : OReply) (ref : Nat → OReply) (tc : Nat → OReply)
    (cs : List LC) (th : List (LC × LC)) (hs : Option Json) (mr : Nat)
    (hg : replySafe gen = true) (hr : ∀ i, replySafe (ref i) = true) :
    ∀ (fuel it ri ti : Nat) (raw : LC),
      ∃ out, solveLoop gen ref tc cs th hs mr fuel it ri ti raw = .ok out := by
  intro fuel
  induction fuel with
  | zero => exact fun _ _ _ _ => ⟨_, rfl⟩
  | succ fuel ih =>
    intro it ri ti raw
    simp only [solveLoop]
    by_cases hit : it + 1 = 1
    · rw [if_pos hit]
      obtain ⟨r, hver, hout⟩ :=
        verify_safe (solverSolve gen).1 (replySafe_gen hg) tc ti (solverSolve gen).2 cs th hs
      simp only [hver]
      cases hval : r.isValid with
      | true =>
        obtain ⟨kvs, hk⟩ := hout hval
        exact ⟨(.success
            (if dHasKey (dSet kvs "iterations".data (.int (it + 1))) "raw".data
             then dSet kvs "iterations".data (.int (it + 1))
             else dSet (dSet kvs "iterations".data (.int (it + 1))) "raw".data
               (.str (solverSolve gen).2)) (it + 1), ri, r.tcNext),
          by rw [if_pos rfl, hk]⟩
      | false =>
        rw [if_neg (by simp)]
        split
        · exact ⟨_, rfl⟩
        · exact ih (it + 1) ri r.tcNext (solverSolve gen).2
    · rw [if_neg hit]
      obtain ⟨r, hver, hout⟩ :=
        verify_safe (refinerRefine (ref ri)).1 (replySafe_ref (hr ri)) tc ti
          (refinerRefine (ref ri)).2 cs th hs
      simp only [hver]
      cases hval : r.isValid with
      | true =>
        obtain ⟨kvs, hk⟩ := hout hval
        exact ⟨(.success
            (if dHasKey (dSet kvs "iterations".data (.int (it + 1))) "raw".data
             then dSet kvs "iterations".data (.int (it + 1))
             else dSet (dSet kvs "iterations".data (.int (it + 1))) "raw".data
               (.str (refinerRefine (ref ri)).2)) (it + 1), ri + 1, r.tcNext),
          by rw [if_pos rfl, hk]⟩
      | false =>
        rw [if_neg (by simp)]
        split
        · exact ⟨_, rfl⟩
        · exact ih (it + 1) (ri + 1) r.tcNext (refinerRefine (ref ri)).2

/-- Claim C2 (corrected), counterexample: a Generator whose first extracted
JSON value is the array `["result"]` makes `verify` raise `AttributeError`,
and `solve` propagates it — it does not return a result dictionary. -/
theorem C2_counterexample :
    solve (OReply.ok ("[\"result\"]".data)) (fun _ => genNoJson) tcRaise [] [] none 2 =
      .error .attributeError := rfl

/-- Claim C2 (amended): `solve` returns a result dictionary and propagates no
exception provided every Generator/Refiner reply is safe: its extracted JSON
value, if any, is not an array containing the string `"result"`, and every
dict entry of an object candidate's valuation carries a string (or no)
`variable` value.  Oracle transport errors and retry exhaustion still yield
ordinary outcomes. -/
theorem C2_no_crash_on_safe_replies (gen : OReply) (ref : Nat → OReply)
    (tc : Nat → OReply) (cs : List LC) (th : List (LC × LC)) (hs : Option Json)
    (maxRetries : Nat) (hg : replySafe gen = true)
    (hr : ∀ i, replySafe (ref i) = true) :
    ∃ out, solve gen ref tc cs th hs maxRetries = .ok out :=
  solveLoop_safe gen ref tc cs th hs maxRetries hg hr (maxRetries + 1) 0 0 0 []

/-- Witness for the amended C2: a JSON-free Generator and a raising Refiner. -/
theorem C2_no_crash_witness :
    ∃ out, solve genNoJson (fun _ => OReply.exn "connection reset".data) tcRaise
      ["head(ref) != null".data] [] none 2 = .ok out :=
  C2_no_crash_on_safe_replies genNoJson (fun _ => OReply.exn "connection reset".data)
    tcRaise ["head(ref) != null".data] [] none 2 rfl (fun _ => rfl)


/-! ## Claims C4 and C5: the type-compatibility stage -/

/-- Claim C4 (corrected), counterexample: the hierarchy supplies a
description under the root key `head` and the `head(ref)` entry has a `type`
key, yet `verify` performs zero oracle calls (`tcNext` stays 0, no log) and
accepts the type — the lookup uses the full variable name, not its root. -/
theorem C4_counterexample :
    dHasKey entryHeadKvs "type".data = true ∧
    (thLookup thRoot "head".data).isSome = true ∧
    verify tcRaise 0 (some candGood) [] csPair thRoot none =
      .ok ⟨true, none, some candGood, [], 0⟩ :=
  ⟨rfl, rfl, rfl⟩

/-- Claim C4 (amended): the oracle is invoked for an entry exactly when the
type-hierarchy dict is non-empty, the entry has a `type` key, and the
hierarchy contains a key equal to the entry's full variable string; with a
full-name key present the call count rises by one, otherwise the entry's
type is accepted with no call.  The closed conjunct runs `verify` with a
full-name-keyed hierarchy: one oracle call is made. -/
theorem C4_type_check_trigger :
    (∀ (tc : Nat → OReply) (tcIdx : Nat) (th : List (LC × LC))
       (kvs : List (LC × Json)) (s : LC),
      dGetD kvs "variable".data (.str []) = .str s →
      ((th ≠ [] ∧ dHasKey kvs "type".data = true ∧ (thLookup th s).isSome = true) →
        typeCheckStage tc tcIdx th kvs =
          .ok (if (checkTypeCompat (tc tcIdx)).1 then none
               else some (.str s, (checkTypeCompat (tc tcIdx)).2.1),
               [(checkTypeCompat (tc tcIdx)).2.2], tcIdx + 1)) ∧
      (¬(th ≠ [] ∧ dHasKey kvs "type".data = true ∧ (thLookup th s).isSome = true) →
        typeCheckStage tc tcIdx th kvs = .ok (none, [], tcIdx))) ∧
    verify tcRaise 0 (some candGood) [] csPair thFull none =
      .ok ⟨true, none, some candGood, [⟨[], some (.transport "boom".data)⟩], 1⟩ := by
  constructor
  · intro tc tcIdx th kvs s hv
    constructor
    · rintro ⟨h1, h2, h3⟩
      have hne : th.isEmpty = false := by
        cases th with
        | nil => exact absurd rfl h1
        | cons a l => rfl
      obtain ⟨d, hd⟩ := Option.isSome_iff_exists.mp h3
      simp only [typeCheckStage, hv, hne, h2, Bool.not_false, Bool.and_self,
        if_true, hd]
    · intro hneg
      by_cases h1 : th = []
      · subst h1
        simp [typeCheckStage]
      · by_cases h2 : dHasKey kvs "type".data = true
        · have h3 : thLookup th s = none := by
            cases hl : thLookup th s with
            | none => rfl
            | some d => exact absurd ⟨h1, h2, by simp [hl]⟩ hneg
          have hne : th.isEmpty = false := by
            cases th with
            | nil => exact absurd rfl h1
            | cons a l => rfl
          simp only [typeCheckStage, hv, hne, h2, Bool.not_false, Bool.and_self,
            if_true, h3]
        · have h2' : dHasKey kvs "type".data = false := by
            cases hk : dHasKey kvs "type".data with
            | false => rfl
            | true => exact absurd hk h2
          simp [typeCheckStage, h2']
  · rfl

/-- Claim C5 (corrected), counterexample: an oracle response whose verdict is
`{"compatible": ""}` — a falsy value different from `false` — still makes
the check a hard failure, so "hard failure only when compatible == false"
does not hold. -/
theorem C5_counterexample :
    (checkTypeCompat (.ok emptyCompatText)).1 = false ∧
    (extract_first_json emptyCompatText).map Prod.fst =
      some (.obj [("compatible".data, .str [])]) :=
  ⟨rfl, rfl⟩

/-- Claim C5 (amended): an oracle exception yields fail-open with the
degraded reasoning logged; a response whose first extracted JSON value is an
object with a `compatible` key yields that value's Python truthiness as the
verdict with the oracle's reason; the check is a hard failure exactly when
such a verdict's `compatible` value is falsy.  The closed conjunct shows a
raising oracle still leaves the whole candidate valid with the degraded log
recorded. -/
theorem C5_fail_open :
    (∀ m, checkTypeCompat (.exn m) =
      (true, .failed (.transport m), ⟨[], some (.transport m)⟩)) ∧
    (∀ (t : LC) (kvs : List (LC × Json)) (v : Json),
      (extract_first_json t).map Prod.fst = some (.obj kvs) →
      dLookup kvs "compatible".data = some v →
      checkTypeCompat (.ok t) =
        (pyTruthy v,
         .oracleReason (dGetD kvs "reason".data (.str "No reason provided".data)),
         ⟨t, none⟩)) ∧
    (∀ reply, (checkTypeCompat reply).1 = false ↔
      ∃ (t : LC) (kvs : List (LC × Json)) (v : Json), reply = .ok t ∧
        (extract_first_json t).map Prod.fst = some (.obj kvs) ∧
        dLookup kvs "compatible".data = some v ∧ pyTruthy v = false) ∧
    verify tcRaise 0 (some candGood) [] csPair thFull none =
      .ok ⟨true, none, some candGood, [⟨[], some (.transport "boom".data)⟩], 1⟩ := by
  refine ⟨fun m => rfl, ?_, ?_, rfl⟩
  · intro t kvs v hext hlook
    have hne : kvs ≠ [] := by
      intro h; subst h; simp [dLookup] at hlook
    have htr : pyTruthy (.obj kvs) = true := by
      simp [pyTruthy, hne]
    have hk : dHasKey kvs "compatible".data = true := by
      simp [dHasKey, hlook]
    simp only [checkTypeCompat, hext, htr, if_true, hk]
    simp [dGetD, hlook]
  · intro reply
    constructor
    · intro hfal
      cases reply with
      | exn m => simp [checkTypeCompat] at hfal
      | ok t =>
        cases hext : (extract_first_json t).map Prod.fst with
        | none => rw [checkTypeCompat] at hfal; simp [hext] at hfal
        | some v0 =>
          cases v0 with
          | obj kvs =>
            by_cases hk : dHasKey kvs "compatible".data = true
            · obtain ⟨v, hv⟩ := Option.isSome_iff_exists.mp hk
              have hne : kvs ≠ [] := by
                intro h; subst h; simp [dLookup] at hv
              have htr : pyTruthy (.obj kvs) = true := by
                simp [pyTruthy, hne]
              rw [checkTypeCompat] at hfal
              simp only [hext, htr, if_true, hk] at hfal
              exact ⟨t, kvs, v, rfl, hext, hv, by simpa [dGetD, hv] using hfal⟩
            · exfalso
              rw [checkTypeCompat] at hfal
              by_cases htr : pyTruthy (.obj kvs) = true
              · simp [hext, htr, hk] at hfal
              · simp only [Bool.not_eq_true] at htr
                simp [hext, htr, hk] at hfal
          | arr es =>
            exfalso
            rw [checkTypeCompat] at hfal
            by_cases htr : pyTruthy (.arr es) = true
            · by_cases hany : (es.any (fun e => jsonBeq e (.str "compatible".data))) = true
              · simp [hext, htr, hany] at hfal
              · simp only [Bool.not_eq_true] at hany
                simp [hext, htr, hany] at hfal
            · simp only [Bool.not_eq_true] at htr
              simp [hext, htr] at hfal
          | null => rw [checkTypeCompat] at hfal; simp [hext, pyTruthy] at hfal
          | bool b =>
            rw [checkTypeCompat] at hfal
            by_cases hb : b = true
            · subst hb; simp [hext, pyTruthy] at hfal
            · simp only [Bool.not_eq_true] at hb
              subst hb; simp [hext, pyTruthy] at hfal
          | num l =>
            rw [checkTypeCompat] at hfal
            by_cases hz : numLexZero l = true
            · simp [hext, pyTruthy, hz] at hfal
            · simp only [Bool.not_eq_true] at hz
              simp [hext, pyTruthy, hz] at hfal
          | int n =>
            rw [checkTypeCompat] at hfal
            by_cases hz : n = 0
            · subst hz; simp [hext, pyTruthy] at hfal
            · simp [hext, pyTruthy, hz] at hfal
          | str ss =>
            rw [checkTypeCompat] at hfal
            by_cases hz : ss.isEmpty = true
            · simp [hext, pyTruthy, hz] at hfal
            · simp only [Bool.not_eq_true] at hz
              simp [hext, pyTruthy, hz] at hfal
    · rintro ⟨t, kvs, v, rfl, hext, hlook, hfal⟩
      have hne : kvs ≠ [] := by
        intro h; subst h; simp [dLookup] at hlook
      have htr : pyTruthy (.obj kvs) = true := by
        simp [pyTruthy, hne]
      have hk : dHasKey kvs "compatible".data = true := by
        simp [dHasKey, hlook]
      rw [checkTypeCompat]
      simp [hext, htr, hk, dGetD, hlook, hfal]


/-! ## Claim C6: variable-name legitimacy -/

theorem isSubstr_head_mem {c : Char} {pat : LC} :
    ∀ s : LC, isSubstr (c :: pat) s = true → c ∈ s := by
  intro s
  induction s with
  | nil => simp [isSubstr]
  | cons d rest ih =>
    intro h
    simp only [isSubstr, Bool.or_eq_true] at h
    rcases h with h | h
    · have hcd : c = d := by
        simp only [List.isPrefixOf] at h
        exact (by simpa using ((Bool.and_eq_true _ _).mp h).1)
      exact hcd ▸ List.mem_cons_self _ _
    · exact List.mem_cons_of_mem _ (ih h)

theorem dropLit_eq {p t r : LC} (h : dropLit p t = some r) : t = p ++ r := by
  simp only [dropLit] at h
  split at h
  · next hp =>
    obtain ⟨u, hu⟩ := List.isPrefixOf_iff_prefix.mp hp
    have hr : r = t.drop p.length := (Option.some.inj h).symm
    subst hr
    rw [← hu, List.drop_left]
  · simp at h

theorem denyCore_parts {p t : LC} (h : denyCore p t = true) :
    ∃ r rr, t = p ++ r ∧ (r = rr ∨ r = '#' :: rr) ∧ rr.all Char.isDigit = true := by
  cases hd : dropLit p t with
  | none => simp only [denyCore, hd] at h; cases h
  | some r =>
    have ht := dropLit_eq hd
    simp only [denyCore, hd] at h
    split at h
    · next rr =>
      refine ⟨_, rr, ht, .inr rfl, ?_⟩
      cases hA : rr.all Char.isDigit with
      | true => rfl
      | false => rw [hA, Bool.and_false] at h; cases h
    · refine ⟨r, r, ht, .inl rfl, ?_⟩
      cases hA : r.all Char.isDigit with
      | true => rfl
      | false => rw [hA, Bool.and_false] at h; cases h

theorem mem_stripNL {c : Char} {s : LC} (hc : c ∈ s) :
    c = '\n' ∨ c ∈ stripNL s := by
  cases hrev : s.reverse with
  | nil =>
    right
    have hstrip : stripNL s = s := by simp only [stripNL, hrev]
    rwa [hstrip]
  | cons a rest =>
    by_cases ha : a = '\n'
    · subst ha
      have hc2 : c ∈ s.reverse := List.mem_reverse.mpr hc
      rw [hrev] at hc2
      rcases List.mem_cons.mp hc2 with rfl | hc3
      · exact .inl rfl
      · right
        have hstrip : stripNL s = rest.reverse := by
          simp only [stripNL, hrev]
        rw [hstrip]
        exact List.mem_reverse.mpr hc3
    · right
      have hstrip : stripNL s = s := by
        simp only [stripNL, hrev]
        split
        · next heq => exact absurd (by injection heq) ha
        · rfl
      rwa [hstrip]

theorem denyMatch_no_ref {s : LC} (h : denyMatch s = true) :
    isSubstr refMarker s = false := by
  cases hi : isSubstr refMarker s with
  | false => rfl
  | true =>
    exfalso
    have hi' : isSubstr ('(' :: "ref)".data) s = true := hi
    have hmem : '(' ∈ s := isSubstr_head_mem s hi'
    rcases mem_stripNL hmem with h2 | h2
    · exact absurd h2 (by decide)
    have h3 : '(' ∈ (stripNL s).map Char.toLower := by
      have h4 := List.mem_map_of_mem Char.toLower h2
      rwa [show Char.toLower '(' = '(' from by decide] at h4
    simp only [denyMatch, List.any_eq_true] at h
    obtain ⟨p, hp, hcore⟩ := h
    obtain ⟨r, rr, ht, hor, hdig⟩ := denyCore_parts hcore
    rw [ht] at h3
    rcases List.mem_append.mp h3 with h4 | h4
    · simp only [denyStems, List.mem_cons, List.not_mem_nil, or_false] at hp
      rcases hp with rfl | rfl | rfl | rfl | rfl | rfl <;> exact absurd h4 (by decide)
    · rcases hor with rfl | rfl
      · exact absurd (List.all_eq_true.mp hdig _ h4) (by decide)
      · rcases List.mem_cons.mp h4 with h5 | h5
        · exact absurd h5 (by decide)
        · exact absurd (List.all_eq_true.mp hdig _ h5) (by decide)

/-- Entries surviving the per-entry loop all carry validated names. -/
theorem checkEntries_passed_valid (tc : Nat → OReply) (th : List (LC × LC))
    (base : List LC) :
    ∀ (es : List Json) (idx tcIdx : Nat) (logs logs' : List TcLog) (tc' : Nat),
      checkEntries tc th base idx tcIdx logs es = .ok (.passed logs' tc') →
      ∀ kvse, Json.obj kvse ∈ es →
        validate_variable_name (dGetD kvse "variable".data (.str [])) base =
          .ok true := by
  intro es
  induction es with
  | nil =>
    intro idx tcIdx logs logs' tc' _ kvse hmem
    exact absurd hmem (List.not_mem_nil _)
  | cons e rest ih =>
    intro idx tcIdx logs logs' tc' hpass kvse hmem
    cases e with
    | obj kvs0 =>
      simp only [checkEntries] at hpass
      cases hk : dHasKey kvs0 "variable".data with
      | false => simp [hk] at hpass
      | true =>
        rw [hk] at hpass
        simp only [Bool.not_true, Bool.false_eq_true, if_false] at hpass
        cases hval : validate_variable_name (dGetD kvs0 "variable".data (.str [])) base with
        | error er => rw [hval] at hpass; simp at hpass
        | ok b =>
          rw [hval] at hpass
          cases b with
          | false => simp at hpass
          | true =>
            rcases List.mem_cons.mp hmem with heq | hmem'
            · obtain rfl : kvse = kvs0 := Json.obj.inj heq
              exact hval
            · simp only [Bool.not_true, Bool.false_eq_true, if_false] at hpass
              split at hpass
              · simp at hpass
              · cases hts : typeCheckStage tc tcIdx th kvs0 with
                | error er => rw [hts] at hpass; simp at hpass
                | ok o =>
                  rw [hts] at hpass
                  obtain ⟨fail, logs2, tc2⟩ := o
                  cases fail with
                  | some pp => simp at hpass
                  | none => exact ih (idx + 1) tc2 (logs ++ logs2) logs' tc' hpass kvse hmem'
    | null => simp [checkEntries] at hpass
    | bool b => simp [checkEntries] at hpass
    | num l => simp [checkEntries] at hpass
    | int n => simp [checkEntries] at hpass
    | str ss => simp [checkEntries] at hpass
    | arr a => simp [checkEntries] at hpass

/-- Claim C6: a SAT valuation entry fails name validation exactly when it
matches the invented-name denylist or carries the reference marker without
being constraint-derived; plain names outside both are accepted.  An `obj#1`
entry prevents successful validation for any constraint set, and the
concrete run reports the offending name and index. -/
theorem C6_name_rejection :
    (∀ (s : LC) (cs : List LC),
      validate_variable_name (.str s) (extract_base_variables cs) = .ok false ↔
        (denyMatch s = true ∨
         (isSubstr refMarker s = true ∧ s ∉ extract_base_variables cs))) ∧
    (∀ (tc : Nat → OReply) (tcIdx : Nat) (kvs : List (LC × Json)) (raw : LC)
       (cs : List LC) (th : List (LC × LC)) (hs : Option Json) (es : List Json)
       (kvse : List (LC × Json)),
      cs ≠ [] →
      dLookup kvs "result".data = some (.str "SAT".data) →
      dLookup kvs "valuation".data = some (.arr es) →
      Json.obj kvse ∈ es →
      dLookup kvse "variable".data = some (.str "obj#1".data) →
      ∀ v, verify tc tcIdx (some (.obj kvs)) raw cs th hs = .ok v →
        v.isValid = false) ∧
    verify tcRaise 0 (some candObj1) [] csPair [] none =
      .ok (invalidOut (.invalidVariableName (.str "obj#1".data) 2) [] 0) := by
  refine ⟨?_, ?_, rfl⟩
  · intro s cs
    have hiff : (extract_base_variables cs).contains s = true ↔
        s ∈ extract_base_variables cs := by simp
    cases hin : (extract_base_variables cs).contains s with
    | true =>
      have hmem : s ∈ extract_base_variables cs := hiff.mp hin
      have href : isSubstr refMarker s = true := base_hasRef hmem
      have hdeny : denyMatch s = false := by
        cases hdm : denyMatch s with
        | false => rfl
        | true => exact absurd href (by simp [denyMatch_no_ref hdm])
      simp [validate_variable_name, hin, hdeny, hmem]
    | false =>
      have hnm : s ∉ extract_base_variables cs := fun hm => by
        rw [hiff.mpr hm] at hin; cases hin
      cases hdm : denyMatch s with
      | true => simp [validate_variable_name, hin, hdm, hnm]
      | false =>
        cases hrf : isSubstr refMarker s with
        | true => simp [validate_variable_name, hin, hdm, hrf, hnm]
        | false => simp [validate_variable_name, hin, hdm, hrf]
  · intro tc tcIdx kvs raw cs th hs es kvse _hcs hres hval hmem hvar v hver
    simp only [verify, hres] at hver
    rw [if_neg (by decide), if_pos (by decide)] at hver
    cases es with
    | nil =>
      simp only [satStage, hval] at hver
      simp only [Except.ok.injEq] at hver
      rw [← hver]
      rfl
    | cons e es' =>
      cases hcol : collectValuationVars (e :: es') with
      | error er =>
        simp only [satStage, hval, hcol] at hver
        exact Except.noConfusion hver
      | ok vars =>
        simp only [satStage, hval, hcol] at hver
        split at hver
        · simp only [Except.ok.injEq] at hver
          rw [← hver]
          rfl
        · cases hce : checkEntries tc th (extract_base_variables cs) 0 tcIdx [] (e :: es') with
          | error er => rw [hce] at hver; simp at hver
          | ok out =>
            rw [hce] at hver
            cases out with
            | failed err logs tc2 =>
              simp only [Except.ok.injEq] at hver
              rw [← hver]
              rfl
            | passed logs tc2 =>
              exfalso
              have hvalid := checkEntries_passed_valid tc th (extract_base_variables cs)
                (e :: es') 0 tcIdx [] logs tc2 hce kvse hmem
              have hgd : dGetD kvse "variable".data (.str []) = .str "obj#1".data := by
                simp [dGetD, hvar]
              rw [hgd] at hvalid
              have hnb : "obj#1".data ∉ extract_base_variables cs := fun hm =>
                absurd (base_hasRef hm) (by decide)
              have hnc : (extract_base_variables cs).contains "obj#1".data = false := by
                cases hcc : (extract_base_variables cs).contains "obj#1".data with
                | false => rfl
                | true => exact absurd (by simpa using hcc) hnb
              rw [validate_variable_name] at hvalid
              simp only [hnc, Bool.false_eq_true, if_false] at hvalid
              rw [if_pos (by decide)] at hvalid
              simp at hvalid

/-- Witness for C6 at the concrete `obj#1` candidate. -/
theorem C6_name_rejection_witness :
    (invalidOut (.invalidVariableName (.str "obj#1".data) 2) [] 0).isValid = false :=
  C6_name_rejection.2.1 tcRaise 0 candObj1Kvs [] csPair [] none
    [entryHead, entryNextNull, entryObj1] entryObj1Kvs
    (List.cons_ne_nil _ _) rfl rfl
    (List.mem_cons_of_mem _ (List.mem_cons_of_mem _ (List.mem_cons_self _ _)))
    rfl (invalidOut (.invalidVariableName (.str "obj#1".data) 2) [] 0) rfl


/-! ## Claim C7: null/non-null consistency -/

theorem mem_nullVars {v : Json} : ∀ es : List Json,
    (v ∈ nullVars es ↔
      ∃ kvs, Json.obj kvs ∈ es ∧
        jsonBeq (dGetD kvs "type".data .null) (.str "null".data) = true ∧
        v = entryVar kvs) := by
  intro es
  induction es with
  | nil => simp [nullVars]
  | cons e rest ih =>
    cases e with
    | obj kvs0 =>
      cases ht : jsonBeq (dGetD kvs0 "type".data .null) (.str "null".data) with
      | true =>
        simp only [nullVars, ht, if_true]
        constructor
        · intro h
          rcases List.mem_cons.mp h with rfl | h2
          · exact ⟨kvs0, List.mem_cons_self _ _, ht, rfl⟩
          · obtain ⟨k2, hm, h3, h4⟩ := ih.mp h2
            exact ⟨k2, List.mem_cons_of_mem _ hm, h3, h4⟩
        · rintro ⟨k2, hm, h3, h4⟩
          rcases List.mem_cons.mp hm with heq | hm2
          · obtain rfl : k2 = kvs0 := Json.obj.inj heq
            exact h4 ▸ List.mem_cons_self _ _
          · exact List.mem_cons_of_mem _ (ih.mpr ⟨k2, hm2, h3, h4⟩)
      | false =>
        simp only [nullVars, ht, Bool.false_eq_true, if_false]
        rw [ih]
        constructor
        · rintro ⟨k2, hm, h3, h4⟩
          exact ⟨k2, List.mem_cons_of_mem _ hm, h3, h4⟩
        · rintro ⟨k2, hm, h3, h4⟩
          rcases List.mem_cons.mp hm with heq | hm2
          · obtain rfl : k2 = kvs0 := Json.obj.inj heq
            rw [h3] at ht
            cases ht
          · exact ⟨k2, hm2, h3, h4⟩
    | null =>
      simp only [nullVars]
      rw [ih]
      simp [List.mem_cons]
    | bool b =>
      simp only [nullVars]
      rw [ih]
      simp [List.mem_cons]
    | num l =>
      simp only [nullVars]
      rw [ih]
      simp [List.mem_cons]
    | int n =>
      simp only [nullVars]
      rw [ih]
      simp [List.mem_cons]
    | str ss =>
      simp only [nullVars]
      rw [ih]
      simp [List.mem_cons]
    | arr a =>
      simp only [nullVars]
      rw [ih]
      simp [List.mem_cons]

theorem mem_nonNullVars {v : Json} : ∀ es : List Json,
    (v ∈ nonNullVars es ↔
      ∃ kvs, Json.obj kvs ∈ es ∧
        jsonBeq (dGetD kvs "type".data .null) (.str "null".data) = false ∧
        jsonBeq (dGetD kvs "reference".data .null) .null = false ∧
        v = entryVar kvs) := by
  intro es
  induction es with
  | nil => simp [nonNullVars]
  | cons e rest ih =>
    cases e with
    | obj kvs0 =>
      cases hcond : (!jsonBeq (dGetD kvs0 "type".data .null) (.str "null".data) &&
          !jsonBeq (dGetD kvs0 "reference".data .null) .null) with
      | true =>
        have h1 : jsonBeq (dGetD kvs0 "type".data .null) (.str "null".data) = false := by
          rcases Bool.and_eq_true _ _ |>.mp hcond with ⟨ha, _⟩
          cases hx : jsonBeq (dGetD kvs0 "type".data .null) (.str "null".data) with
          | false => rfl
          | true => rw [hx] at ha; cases ha
        have h2 : jsonBeq (dGetD kvs0 "reference".data .null) .null = false := by
          rcases Bool.and_eq_true _ _ |>.mp hcond with ⟨_, hb⟩
          cases hx : jsonBeq (dGetD kvs0 "reference".data .null) .null with
          | false => rfl
          | true => rw [hx] at hb; cases hb
        simp only [nonNullVars, hcond, if_true]
        constructor
        · intro h
          rcases List.mem_cons.mp h with rfl | h2'
          · exact ⟨kvs0, List.mem_cons_self _ _, h1, h2, rfl⟩
          · obtain ⟨k2, hm, h3, h4, h5⟩ := ih.mp h2'
            exact ⟨k2, List.mem_cons_of_mem _ hm, h3, h4, h5⟩
        · rintro ⟨k2, hm, h3, h4, h5⟩
          rcases List.mem_cons.mp hm with heq | hm2
          · obtain rfl : k2 = kvs0 := Json.obj.inj heq
            exact h5 ▸ List.mem_cons_self _ _
          · exact List.mem_cons_of_mem _ (ih.mpr ⟨k2, hm2, h3, h4, h5⟩)
      | false =>
        simp only [nonNullVars, hcond, Bool.false_eq_true, if_false]
        rw [ih]
        constructor
        · rintro ⟨k2, hm, h3, h4, h5⟩
          exact ⟨k2, List.mem_cons_of_mem _ hm, h3, h4, h5⟩
        · rintro ⟨k2, hm, h3, h4, h5⟩
          rcases List.mem_cons.mp hm with heq | hm2
          · obtain rfl : k2 = kvs0 := Json.obj.inj heq
            rw [h3, h4] at hcond
            cases hcond
          · exact ⟨k2, hm2, h3, h4, h5⟩
    | null =>
      simp only [nonNullVars]
      rw [ih]
      simp [List.mem_cons]
    | bool b =>
      simp only [nonNullVars]
      rw [ih]
      simp [List.mem_cons]
    | num l =>
      simp only [nonNullVars]
      rw [ih]
      simp [List.mem_cons]
    | int n =>
      simp only [nonNullVars]
      rw [ih]
      simp [List.mem_cons]
    | str ss =>
      simp only [nonNullVars]
      rw [ih]
      simp [List.mem_cons]
    | arr a =>
      simp only [nonNullVars]
      rw [ih]
      simp [List.mem_cons]

theorem dedupJsonAux_nil_iff (l : List Json) :
    dedupJsonAux [] l = [] ↔ l = [] := by
  cases l with
  | nil => simp [dedupJsonAux]
  | cons x rest =>
    simp [dedupJsonAux]

/-- Claim C7 (corrected), counterexample: a single entry carrying both
`type: "null"` and a non-null reference — the claim's condition holds for
`head(ref)`, yet the candidate validates, because the source's `elif` puts
such an entry only in the null partition. -/
theorem C7_counterexample :
    dGetD entryBothKvs "type".data .null = .str "null".data ∧
    dGetD entryBothKvs "reference".data .null ≠ .null ∧
    verify tcRaise 0 (some candBoth) [] csPair [] none =
      .ok ⟨true, none, some candBoth, [], 0⟩ :=
  ⟨rfl, fun h => Json.noConfusion h, rfl⟩

/-- Claim C7 (amended): for entries that reach the consistency check (dicts
with string variables), the conflict set is non-empty exactly when some
variable name occurs both in an entry with `type == "null"` and in a
distinct classification: an entry whose `type` is not `"null"` and whose
`reference` is non-null.  Two such separate entries for the same name fail
with a conflict error naming it, as the closed conjunct shows. -/
theorem C7_null_nonnull_conflict :
    (∀ es : List Json,
      (∀ e ∈ es, ∃ kvse, e = Json.obj kvse ∧ ∃ name, entryVar kvse = .str name) →
      (consistencyConflicts es ≠ [] ↔
        ∃ name : LC,
          (∃ kvs1, Json.obj kvs1 ∈ es ∧
            dGetD kvs1 "type".data .null = .str "null".data ∧
            entryVar kvs1 = .str name) ∧
          (∃ kvs2, Json.obj kvs2 ∈ es ∧
            dGetD kvs2 "type".data .null ≠ .str "null".data ∧
            dGetD kvs2 "reference".data .null ≠ .null ∧
            entryVar kvs2 = .str name))) ∧
    verify tcRaise 0 (some candConflict) [] csPair [] none =
      .ok (invalidOut (.nullConflict [.str "head(ref)".data]) [] 0) := by
  refine ⟨?_, rfl⟩
  intro es hstr
  unfold consistencyConflicts
  rw [Ne, dedupJsonAux_nil_iff]
  constructor
  · intro hne
    obtain ⟨v, hvmem⟩ := List.exists_mem_of_ne_nil _ hne
    have hvf := List.mem_filter.mp hvmem
    obtain ⟨hnull, hany⟩ := hvf
    obtain ⟨k1, hm1, ht1, hv1⟩ := (mem_nullVars es).mp hnull
    obtain ⟨w, hwmem, hbeq⟩ := List.any_eq_true.mp hany
    obtain ⟨k2, hm2, ht2, hr2, hw2⟩ := (mem_nonNullVars es).mp hwmem
    obtain ⟨kvse1, he1, name1, hn1⟩ := hstr _ hm1
    have hn1' : entryVar k1 = Json.str name1 := (Json.obj.inj he1) ▸ hn1
    obtain ⟨kvse2, he2, name2, hn2⟩ := hstr _ hm2
    have hn2' : entryVar k2 = Json.str name2 := (Json.obj.inj he2) ▸ hn2
    have hveq : v = Json.str name1 := hv1.trans hn1'
    have hweq : w = Json.str name2 := hw2.trans hn2' 
    rw [hveq, hweq] at hbeq
    obtain rfl : name1 = name2 := (jsonBeq_str_iff _ _).mp hbeq
    refine ⟨name1, ⟨k1, hm1, (jsonBeq_eq_str _ _).mp ht1, hn1'⟩,
      ⟨k2, hm2, ?_, ?_, hn2'⟩⟩
    · intro hcontra
      rw [(jsonBeq_eq_str _ _).mpr hcontra] at ht2
      cases ht2
    · intro hcontra
      rw [(jsonBeq_eq_null _).mpr hcontra] at hr2
      cases hr2
  · rintro ⟨name, ⟨k1, hm1, ht1, hn1⟩, ⟨k2, hm2, ht2, hr2, hn2⟩⟩
    have hv1 : Json.str name ∈ nullVars es :=
      (mem_nullVars es).mpr ⟨k1, hm1, (jsonBeq_eq_str _ _).mpr ht1, hn1.symm⟩
    have ht2' : jsonBeq (dGetD k2 "type".data .null) (.str "null".data) = false := by
      cases hx : jsonBeq (dGetD k2 "type".data .null) (.str "null".data) with
      | false => rfl
      | true => exact absurd ((jsonBeq_eq_str _ _).mp hx) ht2
    have hr2' : jsonBeq (dGetD k2 "reference".data .null) .null = false := by
      cases hx : jsonBeq (dGetD k2 "reference".data .null) .null with
      | false => rfl
      | true => exact absurd ((jsonBeq_eq_null _).mp hx) hr2
    have hv2 : Json.str name ∈ nonNullVars es :=
      (mem_nonNullVars es).mpr ⟨k2, hm2, ht2', hr2', hn2.symm⟩
    have hfil : Json.str name ∈ (nullVars es).filter
        (fun v => (nonNullVars es).any (jsonBeq v)) := by
      rw [List.mem_filter]
      exact ⟨hv1, List.any_eq_true.mpr ⟨Json.str name, hv2,
        (jsonBeq_str_iff _ _).mpr rfl⟩⟩
    exact List.ne_nil_of_mem hfil

/-- Witness for the amended C7 at the two-entry conflicting valuation. -/
theorem C7_null_nonnull_conflict_witness :
    consistencyConflicts [entryHeadNull, entryHead, entryNextNull] ≠ [] :=
  (C7_null_nonnull_conflict.1 [entryHeadNull, entryHead, entryNextNull]
    (by
      intro e he
      rcases List.mem_cons.mp he with rfl | he2
      · exact ⟨_, rfl, "head(ref)".data, rfl⟩
      rcases List.mem_cons.mp he2 with rfl | he3
      · exact ⟨_, rfl, "head(ref)".data, rfl⟩
      rcases List.mem_cons.mp he3 with rfl | he4
      · exact ⟨_, rfl, "head(ref).next(ref)".data, rfl⟩
      · exact absurd he4 (List.not_mem_nil _))).mpr
    ⟨"head(ref)".data,
      ⟨[("variable".data, Json.str "head(ref)".data),
        ("type".data, Json.str "null".data),
        ("newObject".data, Json.bool false),
        ("trueRef".data, Json.bool true),
        ("reference".data, Json.null)],
        List.mem_cons_self _ _, rfl, rfl⟩,
      ⟨entryHeadKvs,
        List.mem_cons_of_mem _ (List.mem_cons_self _ _),
        fun h => absurd (Json.str.inj h) (by decide),
        fun h => Json.noConfusion h, rfl⟩⟩


/-! ## Claim C8: the JSON extractor -/

theorem decodeAt_nil (i : Nat) : decodeAt [] i = none := by
  cases i <;> rfl

theorem decodeAt_succ (c : Char) (rest : LC) (j : Nat) :
    decodeAt (c :: rest) (j + 1) = decodeAt rest j := rfl

theorem firstDecode_unique {b : LC} {r1 r2 : Json × LC} {i1 i2 : Nat}
    (h1 : decodeAt b i1 = some r1) (m1 : ∀ j, j < i1 → decodeAt b j = none)
    (h2 : decodeAt b i2 = some r2) (m2 : ∀ j, j < i2 → decodeAt b j = none) :
    r1 = r2 := by
  rcases Nat.lt_trichotomy i1 i2 with h | rfl | h
  · rw [m2 _ h] at h1; cases h1
  · rw [h1] at h2; exact Option.some.inj h2
  · rw [m1 _ h] at h2; cases h2

theorem exists_shift {c : Char} {rest : LC} {r : Json × LC}
    (h0 : decodeAt (c :: rest) 0 = none) :
    ((∃ i, decodeAt rest i = some r ∧ ∀ j, j < i → decodeAt rest j = none) ↔
     (∃ i, decodeAt (c :: rest) i = some r ∧
       ∀ j, j < i → decodeAt (c :: rest) j = none)) := by
  constructor
  · rintro ⟨i, hi, hmin⟩
    refine ⟨i + 1, hi, ?_⟩
    intro j hj
    cases j with
    | zero => exact h0
    | succ k => exact hmin k (Nat.lt_of_succ_lt_succ hj)
  · rintro ⟨i, hi, hmin⟩
    cases i with
    | zero => rw [h0] at hi; cases hi
    | succ k =>
      exact ⟨k, hi, fun j hj => hmin (j + 1) (Nat.succ_lt_succ hj)⟩

theorem scanBlock_none_iff : ∀ b : LC,
    (scanBlock b = none ↔ ∀ i, decodeAt b i = none) := by
  intro b
  induction b with
  | nil => simp [scanBlock, decodeAt_nil]
  | cons c rest ih =>
    by_cases hbr : (c = '{' || c = '[') = true
    · cases hdec : decodeHere (c :: rest) with
      | some r0 =>
        have hl : scanBlock (c :: rest) = some r0 := by
          simp [scanBlock, hbr, hdec]
        have h0 : decodeAt (c :: rest) 0 = some r0 := by
          simp [decodeAt, hbr, hdec]
        constructor
        · intro h; rw [hl] at h; cases h
        · intro h; rw [h 0] at h0; cases h0
      | none =>
        have hl : scanBlock (c :: rest) = scanBlock rest := by
          simp [scanBlock, hbr, hdec]
        have h0 : decodeAt (c :: rest) 0 = none := by
          simp [decodeAt, hbr, hdec]
        rw [hl, ih]
        constructor
        · intro h i
          cases i with
          | zero => exact h0
          | succ k => exact h k
        · intro h i
          exact h (i + 1)
    · have hbr' : (c = '{' || c = '[') = false := by
        cases hx : (c = '{' || c = '[') with
        | false => rfl
        | true => exact absurd hx hbr
      have hl : scanBlock (c :: rest) = scanBlock rest := by
        simp [scanBlock, hbr']
      have h0 : decodeAt (c :: rest) 0 = none := by
        simp [decodeAt, hbr']
      rw [hl, ih]
      constructor
      · intro h i
        cases i with
        | zero => exact h0
        | succ k => exact h k
      · intro h i
        exact h (i + 1)

theorem scanBlock_some_iff : ∀ (b : LC) (r : Json × LC),
    (scanBlock b = some r ↔
      ∃ i, decodeAt b i = some r ∧ ∀ j, j < i → decodeAt b j = none) := by
  intro b
  induction b with
  | nil =>
    intro r
    constructor
    · intro h; simp [scanBlock] at h
    · rintro ⟨i, hi, _⟩; rw [decodeAt_nil] at hi; cases hi
  | cons c rest ih =>
    intro r
    by_cases hbr : (c = '{' || c = '[') = true
    · cases hdec : decodeHere (c :: rest) with
      | some r0 =>
        have hl : scanBlock (c :: rest) = some r0 := by
          simp [scanBlock, hbr, hdec]
        have h0 : decodeAt (c :: rest) 0 = some r0 := by
          simp [decodeAt, hbr, hdec]
        rw [hl]
        constructor
        · intro h
          obtain rfl : r0 = r := Option.some.inj h
          exact ⟨0, h0, fun j hj => absurd hj (Nat.not_lt_zero j)⟩
        · rintro ⟨i, hi, hmin⟩
          have : r0 = r := firstDecode_unique h0
            (fun j hj => absurd hj (Nat.not_lt_zero j)) hi hmin
          rw [this]
      | none =>
        have hl : scanBlock (c :: rest) = scanBlock rest := by
          simp [scanBlock, hbr, hdec]
        have h0 : decodeAt (c :: rest) 0 = none := by
          simp [decodeAt, hbr, hdec]
        rw [hl, ih r, exists_shift h0]
    · have hbr' : (c = '{' || c = '[') = false := by
        cases hx : (c = '{' || c = '[') with
        | false => rfl
        | true => exact absurd hx hbr
      have hl : scanBlock (c :: rest) = scanBlock rest := by
        simp [scanBlock, hbr']
      have h0 : decodeAt (c :: rest) 0 = none := by
        simp [decodeAt, hbr']
      rw [hl, ih r, exists_shift h0]

theorem scanRegions_none_iff : ∀ bs : List LC,
    (scanRegions bs = none ↔ NoJsonAnywhere bs) := by
  intro bs
  induction bs with
  | nil =>
    simp only [scanRegions, NoJsonAnywhere]
    constructor
    · intro _ k blk hk
      rw [List.getElem?_nil] at hk
      cases hk
    · intro _; trivial
  | cons b rest ih =>
    cases hsb : scanBlock b with
    | some r0 =>
      have hl : scanRegions (b :: rest) = some r0 := by
        simp [scanRegions, hsb]
      constructor
      · intro h; rw [hl] at h; cases h
      · intro h
        obtain ⟨i, hi, _⟩ := (scanBlock_some_iff b r0).mp hsb
        rw [h 0 b List.getElem?_cons_zero i] at hi
        cases hi
    | none =>
      have hl : scanRegions (b :: rest) = scanRegions rest := by
        simp [scanRegions, hsb]
      have hb : NoDecode b := (scanBlock_none_iff b).mp hsb
      rw [hl, ih]
      constructor
      · intro h k blk hk
        cases k with
        | zero =>
          obtain rfl : b = blk := by
            rw [List.getElem?_cons_zero] at hk
            exact Option.some.inj hk
          exact hb
        | succ k' =>
          rw [List.getElem?_cons_succ] at hk
          exact h k' blk hk
      · intro h k blk hk
        exact h (k + 1) blk (by rwa [List.getElem?_cons_succ])

theorem scanRegions_some_iff : ∀ (bs : List LC) (v : Json) (s : LC),
    (scanRegions bs = some (v, s) ↔ FirstJson bs v s) := by
  intro bs
  induction bs with
  | nil =>
    intro v s
    constructor
    · intro h; simp [scanRegions] at h
    · rintro ⟨k, blk, i, hk, _, _, _⟩
      rw [List.getElem?_nil] at hk
      cases hk
  | cons b rest ih =>
    intro v s
    cases hsb : scanBlock b with
    | some r0 =>
      have hl : scanRegions (b :: rest) = some r0 := by
        simp [scanRegions, hsb]
      obtain ⟨i0, hi0, hmin0⟩ := (scanBlock_some_iff b r0).mp hsb
      rw [hl]
      constructor
      · intro h
        obtain rfl : r0 = (v, s) := Option.some.inj h
        exact ⟨0, b, i0, List.getElem?_cons_zero, hi0,
          fun k' blk' hk' _ => absurd hk' (Nat.not_lt_zero k'),
          hmin0⟩
      · rintro ⟨k, blk, i, hk, hd, hearly, hmin⟩
        cases k with
        | zero =>
          obtain rfl : b = blk := by
            rw [List.getElem?_cons_zero] at hk
            exact Option.some.inj hk
          have : r0 = (v, s) := firstDecode_unique hi0 hmin0 hd hmin
          rw [this]
        | succ k' =>
          exfalso
          have hnb : NoDecode b := hearly 0 b (Nat.succ_pos k') List.getElem?_cons_zero
          rw [hnb i0] at hi0
          cases hi0
    | none =>
      have hl : scanRegions (b :: rest) = scanRegions rest := by
        simp [scanRegions, hsb]
      have hb : NoDecode b := (scanBlock_none_iff b).mp hsb
      rw [hl, ih v s]
      constructor
      · rintro ⟨k, blk, i, hk, hd, hearly, hmin⟩
        refine ⟨k + 1, blk, i, by rwa [List.getElem?_cons_succ], hd, ?_, hmin⟩
        intro k' blk' hk' hblk'
        cases k' with
        | zero =>
          obtain rfl : b = blk' := by
            rw [List.getElem?_cons_zero] at hblk'
            exact Option.some.inj hblk'
          exact hb
        | succ k'' =>
          rw [List.getElem?_cons_succ] at hblk'
          exact hearly k'' blk' (Nat.lt_of_succ_lt_succ hk') hblk'
      · rintro ⟨k, blk, i, hk, hd, hearly, hmin⟩
        cases k with
        | zero =>
          exfalso
          obtain rfl : b = blk := by
            rw [List.getElem?_cons_zero] at hk
            exact Option.some.inj hk
          rw [hb i] at hd
          cases hd
        | succ k' =>
          rw [List.getElem?_cons_succ] at hk
          exact ⟨k', blk, i, hk, hd,
            fun k'' blk'' hk'' hblk'' => hearly (k'' + 1) blk''
              (Nat.succ_lt_succ hk'') (by rwa [List.getElem?_cons_succ]),
            hmin⟩

/-- Claim C8: with at least one fenced block, extraction searches only the
blocks in document order, scanning positions left to right, and returns the
first position that decodes as a JSON object or array together with the
exact matched substring; no decodable JSON in any candidate region means the
not-found signal.  The closed conjuncts settle the literal fence-preference
case and a no-JSON case. -/
theorem C8_extract_first_json :
    (∀ (t : LC) (b : LC) (bs : List LC), findBlocks t = b :: bs →
      ((∀ (v : Json) (s : LC),
          (extract_first_json t = some (v, s) ↔ FirstJson (b :: bs) v s)) ∧
       (extract_first_json t = none ↔ NoJsonAnywhere (b :: bs)))) ∧
    extract_first_json fencedText =
      some (.obj [("result".data, .str "SAT".data)],
            "\x7b\"result\": \"SAT\"\x7d".data) ∧
    extract_first_json noJsonText = none := by
  refine ⟨?_, rfl, rfl⟩
  intro t b bs hfb
  have hcb : candidateBlocks t = b :: bs := by
    simp [candidateBlocks, hfb]
  rw [extract_first_json, hcb]
  exact ⟨fun v s => scanRegions_some_iff (b :: bs) v s,
    scanRegions_none_iff (b :: bs)⟩

/-- Witness for C8 at the literal fenced text. -/
theorem C8_extract_first_json_witness :
    extract_first_json fencedText =
      some (.obj [("result".data, .str "SAT".data)],
            "\x7b\"result\": \"SAT\"\x7d".data) ↔
      FirstJson [fencedBlockContent]
        (.obj [("result".data, .str "SAT".data)])
        ("\x7b\"result\": \"SAT\"\x7d".data) :=
  (C8_extract_first_json.1 fencedText fencedBlockContent [] rfl).1
    (.obj [("result".data, .str "SAT".data)]) ("\x7b\"result\": \"SAT\"\x7d".data)

/-- Witness for the amended C4: full-name hierarchy key triggers one call. -/
theorem C4_type_check_trigger_witness :
    typeCheckStage tcRaise 0 thFull entryHeadKvs =
      .ok (if (checkTypeCompat (tcRaise 0)).1 then none
           else some (.str "head(ref)".data, (checkTypeCompat (tcRaise 0)).2.1),
           [(checkTypeCompat (tcRaise 0)).2.2], 1) :=
  (C4_type_check_trigger.1 tcRaise 0 thFull entryHeadKvs "head(ref)".data rfl).1
    ⟨List.cons_ne_nil _ _, rfl, rfl⟩

/-- Witness for the amended C5 at the falsy-compatible verdict. -/
theorem C5_fail_open_witness :
    checkTypeCompat (.ok emptyCompatText) =
      (pyTruthy (.str []),
       .oracleReason (dGetD [("compatible".data, Json.str [])] "reason".data
         (.str "No reason provided".data)),
       ⟨emptyCompatText, none⟩) :=
  C5_fail_open.2.1 emptyCompatText [("compatible".data, Json.str [])] (.str []) rfl rfl

end JD
